import Mathlib

/-!
Verification development for the pi-mono Python packages (`pi_ai`, `pi_agent`).

This file shallowly embeds the message data model (`pi_ai/types.py`), the
cross-provider message transformer (`pi_ai/providers/transform_messages.py`),
the tolerant streaming JSON parser (`pi_ai/utils/json_parse.py`), the context
overflow detector (`pi_ai/utils/overflow.py`), the Anthropic provider's
tool-call-id normalizer and stream event skeleton (`pi_ai/providers/anthropic.py`),
the agent loop (`pi_agent/agent_loop.py`), and the agent facade guards and
listener fan-out (`pi_agent/agent.py`), and proves properties of those
embeddings.

Conventions used throughout:
* Python `str | None` fields become `Option String`; Python truthiness of an
  optional string (`if x:`) is `x = some s` with `s ≠ ""`.
* Python `int` becomes `Int` (arbitrary precision in both).
* Python wall-clock reads (`time.time()`) become an explicit `now : Int`
  parameter.
* Python `dict[str, str]` used only via `get`/`__setitem__` becomes an
  association list with first-match lookup and replace-or-append update.
* Floating point cost computation (`calculate_cost`) is not embedded; no claim
  mentions costs.
-/

namespace PiMono

/-- JSON values, the model of Python objects produced by `json.loads`
(dict / list / str / int / float / bool / None).  Numbers are kept as a decimal
mantissa together with a power-of-ten exponent (`mantissa * 10 ^ exp10`); an
integer literal parses with `exp10 = 0`.  `nan` and `inf` model the
non-standard `NaN` / `Infinity` / `-Infinity` literals that Python's
`json.loads` accepts by default. -/
inductive Json where
  | null : Json
  | bool (b : Bool) : Json
  | num (mantissa : Int) (exp10 : Int) : Json
  | nan : Json
  | inf (neg : Bool) : Json
  | str (s : String) : Json
  | arr (xs : List Json) : Json
  | obj (kvs : List (String × Json)) : Json
deriving Repr

/-- `StopReason` from `pi_ai/types.py`:
`Literal["stop", "length", "toolUse", "error", "aborted"]`. -/
inductive StopReason where
  | stop
  | length
  | toolUse
  | error
  | aborted
deriving DecidableEq, Repr

/-- `TextContent` from `pi_ai/types.py`. -/
structure TextContent where
  text : String
  text_signature : Option String := none
deriving DecidableEq, Repr

/-- `ThinkingContent` from `pi_ai/types.py`. -/
structure ThinkingContent where
  thinking : String
  thinking_signature : Option String := none
deriving DecidableEq, Repr

/-- `ImageContent` from `pi_ai/types.py`. -/
structure ImageContent where
  data : String
  mime_type : String
deriving DecidableEq, Repr

/-- `ToolCall` from `pi_ai/types.py`. -/
structure ToolCall where
  id : String
  name : String
  arguments : Json := .obj []
  thought_signature : Option String := none
deriving Repr

/-- A content block of an `AssistantMessage`
(`list[TextContent | ThinkingContent | ToolCall]` in `pi_ai/types.py`). -/
inductive ContentBlock where
  | text (t : TextContent)
  | thinking (t : ThinkingContent)
  | toolCall (tc : ToolCall)
deriving Repr

/-- `Usage` from `pi_ai/types.py` (the float `cost` sub-record is not
embedded; no claim mentions costs). -/
structure Usage where
  input : Int := 0
  output : Int := 0
  cache_read : Int := 0
  cache_write : Int := 0
  total_tokens : Int := 0
deriving DecidableEq, Repr

/-- `AssistantMessage` from `pi_ai/types.py`. -/
structure AssistantMessage where
  content : List ContentBlock := []
  api : String
  provider : String
  model : String
  usage : Usage := {}
  stop_reason : StopReason := .stop
  error_message : Option String := none
  timestamp : Int
deriving Repr

/-- A block of a `UserMessage` / `ToolResultMessage` content list
(`TextContent | ImageContent`). -/
inductive UserBlock where
  | text (t : TextContent)
  | image (i : ImageContent)
deriving DecidableEq, Repr

/-- The content of a `UserMessage`: `str | list[TextContent | ImageContent]`. -/
inductive UserContent where
  | str (s : String)
  | blocks (bs : List UserBlock)
deriving DecidableEq, Repr

/-- `UserMessage` from `pi_ai/types.py`. -/
structure UserMessage where
  content : UserContent
  timestamp : Int
deriving DecidableEq, Repr

/-- `ToolResultMessage` from `pi_ai/types.py` (`details : Any` is embedded as
`Json`, its only uses in the embedded code pass it through unchanged). -/
structure ToolResultMessage where
  tool_call_id : String
  tool_name : String
  content : List UserBlock
  details : Json := .null
  is_error : Bool := false
  timestamp : Int
deriving Repr

/-- `Message = UserMessage | AssistantMessage | ToolResultMessage`. -/
inductive Message where
  | user (m : UserMessage)
  | assistant (m : AssistantMessage)
  | toolResult (m : ToolResultMessage)
deriving Repr

/-- `Model` from `pi_ai/types.py` (cost, headers and compat hints are not
embedded; the embedded code reads none of them). -/
structure ModelDesc where
  id : String
  name : String
  api : String
  provider : String
  base_url : String
  reasoning : Bool
  context_window : Int
  max_tokens : Int
deriving DecidableEq, Repr

/-- Python truthiness of an optional string: `None` and `""` are falsy. -/
def truthyOpt : Option String → Bool
  | some s => s ≠ ""
  | none => false

/-- Python `s.strip() == ""`: every character is whitespace (also true for the
empty string). -/
def stripIsEmpty (s : String) : Bool :=
  s.data.all fun c =>
    c = ' ' || c = '\t' || c = '\n' || c = '\r' || c = '\x0b' || c = '\x0c'

namespace Transform

/-! ### `transform_messages` (pi_ai/providers/transform_messages.py)

The Python function makes two passes.  The first pass rewrites assistant
content blocks for the target model and threads `tool_call_id_map`; the second
pass removes errored/aborted assistant messages and inserts synthetic
tool results for orphaned tool calls.  `normalize_tool_call_id` is the optional
`Callable[[str, Model, AssistantMessage], str]` parameter. -/

/-- The optional `normalize_tool_call_id` callback. -/
abbrev Normalizer := String → ModelDesc → AssistantMessage → String

/-- First-match lookup in `tool_call_id_map` (Python `dict.get`). -/
def mapGet (m : List (String × String)) (k : String) : Option String :=
  (m.find? (fun p => p.1 = k)).map (fun p => p.2)

/-- Replace-or-append update of `tool_call_id_map` (Python `d[k] = v`). -/
def mapInsert (m : List (String × String)) (k v : String) : List (String × String) :=
  match m with
  | [] => [(k, v)]
  | (k', v') :: rest =>
      if k' = k then (k, v) :: rest else (k', v') :: mapInsert rest k v

/-- The thought-signature stripping applied to tool calls sent to a different
model (`transform_messages.py` lines 102-106): remove `thought_signature` when
it is truthy and the model differs. -/
def stripThought (isSame : Bool) (tc : ToolCall) : ToolCall :=
  if !isSame && truthyOpt tc.thought_signature then
    { tc with thought_signature := none }
  else tc

/-- One step of the first pass over the content blocks of one assistant
message (`transform_messages.py` lines 73-122), threading
`tool_call_id_map`.  `isSame` is `is_same_model`, `am` is the (untransformed)
assistant message handed to the normalizer. -/
def firstPassBlocks (model : ModelDesc) (f : Option Normalizer) (am : AssistantMessage)
    (isSame : Bool) :
    List ContentBlock → List (String × String) → List ContentBlock × List (String × String)
  | [], m => ([], m)
  | .thinking tk :: bs, m =>
      if isSame && truthyOpt tk.thinking_signature then
        let r := firstPassBlocks model f am isSame bs m
        (.thinking tk :: r.1, r.2)
      else if stripIsEmpty tk.thinking then
        firstPassBlocks model f am isSame bs m
      else if isSame then
        let r := firstPassBlocks model f am isSame bs m
        (.thinking tk :: r.1, r.2)
      else
        let r := firstPassBlocks model f am isSame bs m
        (.text { text := tk.thinking } :: r.1, r.2)
  | .text tx :: bs, m =>
      if isSame then
        let r := firstPassBlocks model f am isSame bs m
        (.text tx :: r.1, r.2)
      else
        let r := firstPassBlocks model f am isSame bs m
        (.text { text := tx.text } :: r.1, r.2)
  | .toolCall tc :: bs, m =>
      let tc1 := stripThought isSame tc
      match f with
        | some g =>
          if !isSame then
            let nid := g tc.id model am
            if nid ≠ tc.id then
              let r := firstPassBlocks model f am isSame bs (mapInsert m tc.id nid)
              (.toolCall { tc1 with id := nid } :: r.1, r.2)
            else
              let r := firstPassBlocks model f am isSame bs m
              (.toolCall tc1 :: r.1, r.2)
          else
            let r := firstPassBlocks model f am isSame bs m
            (.toolCall tc1 :: r.1, r.2)
        | none =>
          let r := firstPassBlocks model f am isSame bs m
          (.toolCall tc1 :: r.1, r.2)

/-- `is_same_model` (`transform_messages.py` lines 67-71). -/
def isSameModel (am : AssistantMessage) (model : ModelDesc) : Bool :=
  am.provider = model.provider && am.api = model.api && am.model = model.id

/-- First pass of `transform_messages` (lines 46-131): user messages pass
through, tool results are remapped through `tool_call_id_map`, assistant
messages get their content rewritten. -/
def firstPass (model : ModelDesc) (f : Option Normalizer) :
    List Message → List (String × String) → List Message
  | [], _ => []
  | .user u :: rest, m => .user u :: firstPass model f rest m
  | .toolResult tr :: rest, m =>
      match mapGet m tr.tool_call_id with
      | some nid =>
          if nid ≠ "" && nid ≠ tr.tool_call_id then
            .toolResult { tr with tool_call_id := nid } :: firstPass model f rest m
          else
            .toolResult tr :: firstPass model f rest m
      | none => .toolResult tr :: firstPass model f rest m
  | .assistant am :: rest, m =>
      let isSame := isSameModel am model
      let r := firstPassBlocks model f am isSame am.content m
      .assistant { am with content := r.1 } :: firstPass model f rest r.2

/-- The tool-call blocks of an assistant message
(`[b for b in assistant_msg.content if b.type == "toolCall"]`). -/
def toolCallsOf (am : AssistantMessage) : List ToolCall :=
  am.content.filterMap (fun b => match b with
    | .toolCall tc => some tc
    | _ => none)

/-- A synthetic `ToolResultMessage` for an orphaned tool call
(`transform_messages.py` lines 144-153). -/
def synthResult (now : Int) (tc : ToolCall) : ToolResultMessage :=
  { tool_call_id := tc.id
    tool_name := tc.name
    content := [.text { text := "No result provided" }]
    is_error := true
    timestamp := now }

/-- The synthetic results inserted at a flush point: one per pending tool
call whose id has no recorded tool result. -/
def synthFor (now : Int) (pending : List ToolCall) (existing : List String) :
    List ToolResultMessage :=
  pending.filterMap (fun tc =>
    if tc.id ∈ existing then none else some (synthResult now tc))

/-- Second pass of `transform_messages` (lines 133-196): drop errored/aborted
assistant messages and repair orphaned tool calls at the next assistant or
user message.  `pending` is `pending_tool_calls`, `existing` is
`existing_tool_result_ids` (membership-only, so a plain list). -/
def secondPass (now : Int) :
    List ToolCall → List String → List Message → List Message
  | _, _, [] => []
  | pending, existing, .assistant am :: rest =>
      let pre : List Message :=
        if pending.isEmpty then [] else (synthFor now pending existing).map .toolResult
      let e1 := if pending.isEmpty then existing else []
      if am.stop_reason = .error ∨ am.stop_reason = .aborted then
        pre ++ secondPass now [] e1 rest
      else
        let tcs := toolCallsOf am
        if tcs.isEmpty then
          pre ++ .assistant am :: secondPass now [] e1 rest
        else
          pre ++ .assistant am :: secondPass now tcs [] rest
  | pending, existing, .toolResult tr :: rest =>
      .toolResult tr :: secondPass now pending (tr.tool_call_id :: existing) rest
  | pending, existing, .user u :: rest =>
      if pending.isEmpty then
        .user u :: secondPass now pending existing rest
      else
        ((synthFor now pending existing).map .toolResult) ++
          .user u :: secondPass now [] [] rest

/-- `transform_messages(messages, model, normalize_tool_call_id)` with the
wall clock passed explicitly as `now`. -/
def transform_messages (messages : List Message) (model : ModelDesc)
    (f : Option Normalizer := none) (now : Int := 0) : List Message :=
  secondPass now [] [] (firstPass model f messages [])

end Transform

/-! ### `_normalize_tool_call_id` (pi_ai/providers/anthropic.py, lines 90-95)

`re.sub(r"[^a-zA-Z0-9_-]", "_", id)[:64]`: every character outside
`[a-zA-Z0-9_-]` is replaced by `_`, then the result is truncated to 64
characters. -/

/-- Membership in the character class `[a-zA-Z0-9_-]`. -/
def allowedIdChar (c : Char) : Bool :=
  ('a' ≤ c && c ≤ 'z') || ('A' ≤ c && c ≤ 'Z') || ('0' ≤ c && c ≤ '9') ||
    c = '_' || c = '-'

/-- The per-character action of `re.sub(r"[^a-zA-Z0-9_-]", "_", ·)`. -/
def replaceIdChar (c : Char) : Char :=
  if allowedIdChar c then c else '_'

/-- `_normalize_tool_call_id` from `pi_ai/providers/anthropic.py`. -/
def normalize_tool_call_id (s : String) : String :=
  ⟨(s.data.map replaceIdChar).take 64⟩

/-- Whether a message is an assistant message with `stop_reason` in
`("error", "aborted")`. -/
def isErroredAssistant : Message → Bool
  | .assistant am => am.stop_reason = .error || am.stop_reason = .aborted
  | _ => false

/-- Whether a message is a `ToolResultMessage` answering tool call id `id`. -/
def isResultFor (id : String) : Message → Bool
  | .toolResult tr => tr.tool_call_id = id
  | _ => false

/-- Whether a message is an assistant or user message (the flush boundaries of
the second transformer pass). -/
def isTurnBoundary : Message → Bool
  | .assistant _ => true
  | .user _ => true
  | _ => false

namespace JsonParse

/-! ### `parse_streaming_json` (pi_ai/utils/json_parse.py)

`json.loads` is modelled by a strict JSON value reader (`json_loads`)
over the character list of the input, returning `none` where Python raises
`json.JSONDecodeError`: it accepts the JSON grammar plus the non-standard
`NaN` / `Infinity` / `-Infinity` literals that Python accepts by default.
The repair step (`json_parse.py` lines 34-69) is translated verbatim. -/

/-- JSON whitespace accepted between tokens (`json.loads` skips exactly
space, tab, newline, carriage return). -/
def isJsonWs (c : Char) : Bool :=
  c = ' ' || c = '\t' || c = '\n' || c = '\r'

/-- Skip leading JSON whitespace. -/
def skipWs : List Char → List Char
  | [] => []
  | c :: cs => if isJsonWs c then skipWs cs else c :: cs

/-- Hex digit value. -/
def hexVal (c : Char) : Option Nat :=
  if '0' ≤ c ∧ c ≤ '9' then some (c.toNat - 48)
  else if 'a' ≤ c ∧ c ≤ 'f' then some (c.toNat - 87)
  else if 'A' ≤ c ∧ c ≤ 'F' then some (c.toNat - 55)
  else none

/-- Read a JSON string body (after the opening quote), handling the escape
sequences of the JSON grammar; returns the decoded characters and the input
following the closing quote.  Unescaped control characters are rejected, as
in strict `json.loads`. -/
def parseStringBody : List Char → Option (List Char × List Char)
  | [] => none
  | '"' :: cs => some ([], cs)
  | '\\' :: 'u' :: h1 :: h2 :: h3 :: h4 :: cs =>
      match hexVal h1, hexVal h2, hexVal h3, hexVal h4 with
      | some a, some b, some c, some d =>
          match parseStringBody cs with
          | some (body, rest) =>
              some (Char.ofNat (((a * 16 + b) * 16 + c) * 16 + d) :: body, rest)
          | none => none
      | _, _, _, _ => none
  | '\\' :: e :: cs =>
      let dec : Option Char :=
        if e = '"' then some '"'
        else if e = '\\' then some '\\'
        else if e = '/' then some '/'
        else if e = 'b' then some (Char.ofNat 8)
        else if e = 'f' then some (Char.ofNat 12)
        else if e = 'n' then some '\n'
        else if e = 'r' then some '\r'
        else if e = 't' then some '\t'
        else none
      match dec with
      | some c =>
          match parseStringBody cs with
          | some (body, rest) => some (c :: body, rest)
          | none => none
      | none => none
  | c :: cs =>
      if c.toNat < 32 then none
      else
        match parseStringBody cs with
        | some (body, rest) => some (c :: body, rest)
        | none => none

/-- Numeric value of a list of decimal digits. -/
def natOfDigits (ds : List Char) : Nat :=
  ds.foldl (fun n c => n * 10 + (c.toNat - 48)) 0

/-- Read a JSON number (`-?(0|[1-9][0-9]*)(\.[0-9]+)?([eE][+-]?[0-9]+)?`),
returned as mantissa and decimal exponent. -/
def parseNumber (cs : List Char) : Option (Json × List Char) :=
  let (neg, cs1) :=
    match cs with
    | '-' :: t => (true, t)
    | _ => (false, cs)
  let intDigits := cs1.takeWhile Char.isDigit
  let rest1 := cs1.dropWhile Char.isDigit
  if intDigits.isEmpty then none
  else if intDigits.head? = some '0' ∧ 1 < intDigits.length then none
  else
    let (fracDigits, rest2) :=
      match rest1 with
      | '.' :: t =>
          (t.takeWhile Char.isDigit, t.dropWhile Char.isDigit)
      | _ => ([], rest1)
    if rest1.head? = some '.' ∧ fracDigits.isEmpty then none
    else
      let hasExp := rest2.head? = some 'e' ∨ rest2.head? = some 'E'
      if hasExp then
        let t := rest2.tail
        let (expNeg, t2) :=
          match t with
          | '+' :: u => (false, u)
          | '-' :: u => (true, u)
          | _ => (false, t)
        let expDigits := t2.takeWhile Char.isDigit
        let rest3 := t2.dropWhile Char.isDigit
        if expDigits.isEmpty then none
        else
          let mant : Int := Int.ofNat (natOfDigits (intDigits ++ fracDigits))
          let mant := if neg then -mant else mant
          let expv : Int := Int.ofNat (natOfDigits expDigits)
          let expv := if expNeg then -expv else expv
          some (.num mant (expv - Int.ofNat fracDigits.length), rest3)
      else
        let mant : Int := Int.ofNat (natOfDigits (intDigits ++ fracDigits))
        let mant := if neg then -mant else mant
        some (.num mant (- Int.ofNat fracDigits.length), rest2)

/-- Drop `lit` as a prefix of `cs`, if present. -/
def stripLit : List Char → List Char → Option (List Char)
  | [], cs => some cs
  | l :: ls, c :: cs => if c = l then stripLit ls cs else none
  | _ :: _, [] => none

mutual

/-- Read one JSON value. -/
def parseValue : Nat → List Char → Option (Json × List Char)
  | 0, _ => none
  | fuel + 1, cs =>
      match skipWs cs with
      | [] => none
      | '\x7b' :: t => parseObjBody fuel (skipWs t) []
      | '[' :: t =>
          match skipWs t with
          | ']' :: rest => some (.arr [], rest)
          | cs2 => parseArrBody fuel cs2 []
      | '"' :: t =>
          match parseStringBody t with
          | some (body, rest) => some (.str (String.mk body), rest)
          | none => none
      | 't' :: t =>
          match stripLit ['r', 'u', 'e'] t with
          | some rest => some (.bool true, rest)
          | none => none
      | 'f' :: t =>
          match stripLit ['a', 'l', 's', 'e'] t with
          | some rest => some (.bool false, rest)
          | none => none
      | 'n' :: t =>
          match stripLit ['u', 'l', 'l'] t with
          | some rest => some (.null, rest)
          | none => none
      | 'N' :: t =>
          match stripLit ['a', 'N'] t with
          | some rest => some (.nan, rest)
          | none => none
      | 'I' :: t =>
          match stripLit ['n', 'f', 'i', 'n', 'i', 't', 'y'] t with
          | some rest => some (.inf false, rest)
          | none => none
      | '-' :: 'I' :: t =>
          match stripLit ['n', 'f', 'i', 'n', 'i', 't', 'y'] t with
          | some rest => some (.inf true, rest)
          | none => none
      | cs2 => parseNumber cs2

/-- Read the members of a JSON object after the opening brace (and leading
whitespace). -/
def parseObjBody : Nat → List Char → List (String × Json) → Option (Json × List Char)
  | 0, _, _ => none
  | _ + 1, '\x7d' :: rest, acc => some (.obj acc.reverse, rest)
  | fuel + 1, '"' :: t, acc =>
      match parseStringBody t with
      | some (key, rest1) =>
          match skipWs rest1 with
          | ':' :: rest2 =>
              match parseValue fuel rest2 with
              | some (v, rest3) =>
                  match skipWs rest3 with
                  | ',' :: rest4 =>
                      match skipWs rest4 with
                      | '"' :: rest5 =>
                          parseObjBody fuel ('"' :: rest5) ((String.mk key, v) :: acc)
                      | _ => none
                  | '\x7d' :: rest4 => some (.obj ((String.mk key, v) :: acc).reverse, rest4)
                  | _ => none
              | none => none
          | _ => none
      | none => none
  | _ + 1, _, _ => none

/-- Read the elements of a JSON array after the opening bracket (and leading
whitespace). -/
def parseArrBody : Nat → List Char → List Json → Option (Json × List Char)
  | 0, _, _ => none
  | fuel + 1, cs, acc =>
      match parseValue fuel cs with
      | some (v, rest1) =>
          match skipWs rest1 with
          | ',' :: rest2 => parseArrBody fuel (skipWs rest2) (v :: acc)
          | ']' :: rest2 => some (.arr (v :: acc).reverse, rest2)
          | _ => none
      | none => none

end

/-- Model of Python `json.loads`: parse one JSON document with nothing but
whitespace around it; `none` is a raised `json.JSONDecodeError`. -/
def json_loads (s : String) : Option Json :=
  match parseValue (s.data.length + 1) s.data with
  | some (v, rest) =>
      match skipWs rest with
      | [] => some v
      | _ => none
  | none => none

/-- State of the bracket-counting recovery scan
(`json_parse.py` lines 36-61). -/
structure RepairState where
  bracket : Int
  brace : Int
  in_string : Bool
  escape_next : Bool
deriving Repr

/-- The recovery scan over the partial JSON (`json_parse.py` lines 42-61). -/
def repairScan : List Char → RepairState → RepairState
  | [], st => st
  | c :: cs, st =>
      if st.escape_next then repairScan cs { st with escape_next := false }
      else if c = '\\' then repairScan cs { st with escape_next := true }
      else if c = '"' then repairScan cs { st with in_string := !st.in_string }
      else if st.in_string then repairScan cs st
      else if c = '[' then repairScan cs { st with bracket := st.bracket + 1 }
      else if c = ']' then repairScan cs { st with bracket := st.bracket - 1 }
      else if c = '\x7b' then repairScan cs { st with brace := st.brace + 1 }
      else if c = '\x7d' then repairScan cs { st with brace := st.brace - 1 }
      else repairScan cs st

/-- Close any unclosed string, brackets and braces
(`json_parse.py` lines 63-67). -/
def repairClose (s : String) : String :=
  let st := repairScan s.data { bracket := 0, brace := 0, in_string := false, escape_next := false }
  let s1 := if st.in_string then s ++ "\"" else s
  let s2 := s1 ++ String.mk (List.replicate st.bracket.toNat ']')
  s2 ++ String.mk (List.replicate st.brace.toNat '\x7d')

/-- `parse_streaming_json` from `pi_ai/utils/json_parse.py`, with the
`str | None` argument as `Option String`. -/
def parse_streaming_json (partial_json : Option String) : Json :=
  match partial_json with
  | none => .obj []
  | some s =>
      if stripIsEmpty s then .obj []
      else
        match json_loads s with
        | some v => v
        | none =>
            match json_loads (repairClose s) with
            | some v => v
            | none => .obj []

end JsonParse

/-- Whether a JSON value is an object (a Python dict). -/
def Json.isObj : Json → Bool
  | .obj _ => true
  | _ => false

namespace Overflow

/-! ### `is_context_overflow` (pi_ai/utils/overflow.py)

Python regexes are modelled by a small regular-expression language with a
Brzozowski-derivative matcher.  `re.IGNORECASE` is modelled by lowercasing the
subject (the patterns are already lowercase); `re.search` wraps the pattern in
unrestricted context; `re.match` anchors at the start only. -/

/-- Regular expressions: empty language, empty string, character class,
concatenation, alternation, Kleene star. -/
inductive RE where
  | emp : RE
  | eps : RE
  | cls (p : Char → Bool) : RE
  | seq (a b : RE) : RE
  | alt (a b : RE) : RE
  | star (a : RE) : RE

/-- Whether the regex accepts the empty string. -/
def nullable : RE → Bool
  | .emp => false
  | .eps => true
  | .cls _ => false
  | .seq a b => nullable a && nullable b
  | .alt a b => nullable a || nullable b
  | .star _ => true

/-- Brzozowski derivative with respect to one character. -/
def deriv (r : RE) (c : Char) : RE :=
  match r with
  | .emp => .emp
  | .eps => .emp
  | .cls p => if p c then .eps else .emp
  | .seq a b =>
      if nullable a then .alt (.seq (deriv a c) b) (deriv b c)
      else .seq (deriv a c) b
  | .alt a b => .alt (deriv a c) (deriv b c)
  | .star a => .seq (deriv a c) (.star a)

/-- Whole-string match. -/
def matchesFull (r : RE) (s : List Char) : Bool :=
  nullable (s.foldl deriv r)

/-- Literal string pattern. -/
def rlit (s : String) : RE :=
  s.data.foldr (fun c acc => .seq (.cls fun x => x = c) acc) .eps

/-- `\d` — a decimal digit. -/
def rdigit : RE := .cls Char.isDigit

/-- `r+`. -/
def rplus (r : RE) : RE := .seq r (.star r)

/-- `r?`. -/
def ropt (r : RE) : RE := .alt r .eps

/-- `.` — any character except a newline (Python default, no DOTALL). -/
def rdot : RE := .cls fun c => c ≠ '\n'

/-- Truly any character (used to embed search in a full match). -/
def rany : RE := .cls fun _ => true

/-- `\s` — ASCII whitespace. -/
def rws : RE :=
  .cls fun c => c = ' ' || c = '\t' || c = '\n' || c = '\r' || c = '\x0b' || c = '\x0c'

/-- Concatenation of a list of regexes. -/
def rcat (l : List RE) : RE := l.foldr .seq .eps

/-- ASCII lowercasing of one character (the patterns are ASCII-only, so this
realizes `re.IGNORECASE` for them). -/
def charLower (c : Char) : Char :=
  if 'A' ≤ c ∧ c ≤ 'Z' then Char.ofNat (c.toNat + 32) else c

/-- `re.search(p, s)` under `re.IGNORECASE` (patterns are lowercase): some
substring of the lowercased subject matches. -/
def reSearch (r : RE) (s : String) : Bool :=
  matchesFull (.seq (.star rany) (.seq r (.star rany))) (s.data.map charLower)

/-- `re.match(p, s)` under `re.IGNORECASE`: some prefix of the lowercased
subject matches. -/
def reMatch (r : RE) (s : String) : Bool :=
  matchesFull (.seq r (.star rany)) (s.data.map charLower)

/-- `OVERFLOW_PATTERNS` from `pi_ai/utils/overflow.py` (lines 12-28), in
catalog order. -/
def OVERFLOW_PATTERNS : List RE :=
  [ rlit "prompt is too long"
  , rlit "input is too long for requested model"
  , rlit "exceeds the context window"
  , rcat [rlit "input token count", .star rdot, rlit "exceeds the maximum"]
  , rcat [rlit "maximum prompt length is ", rplus rdigit]
  , rlit "reduce the length of the messages"
  , rcat [rlit "maximum context length is ", rplus rdigit, rlit " tokens"]
  , rcat [rlit "exceeds the limit of ", rplus rdigit]
  , rlit "exceeds the available context size"
  , rlit "greater than the context length"
  , rlit "context window exceeds limit"
  , rlit "exceeded model token limit"
  , rcat [rlit "context", .cls (fun c => c = '_' || c = ' '), rlit "length",
      .cls (fun c => c = '_' || c = ' '), rlit "exceeded"]
  , rlit "too many tokens"
  , rlit "token limit exceeded" ]

/-- Whether the error message matches one of the catalog patterns
(`overflow.py` line 51). -/
def matchesOverflowPattern (em : String) : Bool :=
  OVERFLOW_PATTERNS.any fun p => reSearch p em

/-- `^4(00|13)\s*(status code)?\s*\(no body\)` (`overflow.py` line 55). -/
def noBodyRE : RE :=
  rcat [rlit "4", .alt (rlit "00") (rlit "13"), .star rws,
    ropt (rlit "status code"), .star rws, rlit "(no body)"]

/-- `is_context_overflow` from `pi_ai/utils/overflow.py` (lines 31-64).
Python's early `return True` chain is an `||`; the truthiness guards
(`message.error_message` truthy, `context_window` truthy) are explicit. -/
def is_context_overflow (message : AssistantMessage)
    (context_window : Option Int := none) : Bool :=
  (decide (message.stop_reason = .error) &&
    (match message.error_message with
     | some em =>
         decide (em ≠ "") && (matchesOverflowPattern em || reMatch noBodyRE em)
     | none => false))
  ||
  (match context_window with
   | some w =>
       decide (w ≠ 0) && decide (message.stop_reason = .stop) &&
         decide (message.usage.input + message.usage.cache_read > w)
   | none => false)

/-- Modelled from the claim (refinement side): the spec's three-way
condition for overflow detection, with "context_window is provided" read
literally — no nonzero requirement.  Compared against
`is_context_overflow`, which is translated from the source. -/
def specOverflowCondition (m : AssistantMessage) (w : Option Int) : Bool :=
  (decide (m.stop_reason = .error) &&
    (match m.error_message with
     | some em => matchesOverflowPattern em
     | none => false))
  ||
  (decide (m.stop_reason = .error) &&
    (match m.error_message with
     | some em => reMatch noBodyRE em
     | none => false))
  ||
  (match w with
   | some w0 =>
       decide (m.stop_reason = .stop) &&
         decide (m.usage.input + m.usage.cache_read > w0)
   | none => false)

end Overflow

/-- Whether a message is an assistant message. -/
def isAssistant : Message → Bool
  | .assistant _ => true
  | _ => false

namespace Anthropic

/-! ### The Anthropic stream event skeleton (pi_ai/providers/anthropic.py)

The embedded part is the wire-event consumption loop of `stream_anthropic`
(lines 362-514): translating provider events into the canonical stream events
and accumulating the partial assistant message.  Client construction, request
parameter building and the HTTP layer are not embedded; the wire events are
the input list.  Emitted events are recorded by kind and payload; the
`partial` message snapshot attached to every Python event is omitted. -/

/-- `_map_stop_reason` from `pi_ai/providers/anthropic.py` (lines 130-141):
dictionary lookup with default `"error"`. -/
def _map_stop_reason (reason : String) : StopReason :=
  if reason = "end_turn" then .stop
  else if reason = "max_tokens" then .length
  else if reason = "tool_use" then .toolUse
  else if reason = "refusal" then .error
  else if reason = "pause_turn" then .stop
  else if reason = "stop_sequence" then .stop
  else if reason = "sensitive" then .error
  else .error

/-- Usage payload of a wire event; absent fields are `none`. -/
structure AnthUsage where
  input_tokens : Option Int := none
  output_tokens : Option Int := none
  cache_read_input_tokens : Option Int := none
  cache_creation_input_tokens : Option Int := none
deriving Repr

/-- The `content_block_start` block kinds handled by the loop. -/
inductive AnthBlockStart where
  | text
  | thinking
  | tool_use (id : String) (name : String)
deriving Repr

/-- The `content_block_delta` payloads handled by the loop. -/
inductive AnthDelta where
  | text_delta (text : String)
  | thinking_delta (thinking : String)
  | input_json_delta (partial_json : String)
  | signature_delta (signature : String)
deriving Repr

/-- Anthropic wire events consumed by the loop. -/
inductive AnthEvent where
  | message_start (usage : AnthUsage)
  | content_block_start (index : Nat) (block : AnthBlockStart)
  | content_block_delta (index : Nat) (delta : AnthDelta)
  | content_block_stop (index : Nat)
  | message_delta (stop_reason : Option String) (usage : Option AnthUsage)
deriving Repr

/-- The kinds of events the provider pushes into the
`AssistantMessageEventStream`, with their non-snapshot payloads. -/
inductive StreamEventKind where
  | start
  | text_start (i : Nat)
  | text_delta (i : Nat) (d : String)
  | text_end (i : Nat) (content : String)
  | thinking_start (i : Nat)
  | thinking_delta (i : Nat) (d : String)
  | thinking_end (i : Nat) (content : String)
  | toolcall_start (i : Nat)
  | toolcall_delta (i : Nat) (d : String)
  | toolcall_end (i : Nat) (tc : ToolCall)
  | done (reason : StopReason)
  | error (reason : StopReason)
deriving Repr

/-- An entry of `block_map`: content index and accumulated partial JSON. -/
structure BlockInfo where
  index : Nat
  partial_json : String := ""
deriving Repr

/-- `block_map` lookup (Python `dict.get`). -/
def bmGet (m : List (Nat × BlockInfo)) (k : Nat) : Option BlockInfo :=
  (m.find? (fun p => p.1 = k)).map (fun p => p.2)

/-- `block_map` update (Python `d[k] = v`). -/
def bmSet (m : List (Nat × BlockInfo)) (k : Nat) (v : BlockInfo) : List (Nat × BlockInfo) :=
  match m with
  | [] => [(k, v)]
  | (k2, v2) :: rest =>
      if k2 = k then (k, v) :: rest else (k2, v2) :: bmSet rest k v

/-- The mutable state of the consumption loop: the partial output message,
`block_map`, and the events pushed so far. -/
structure AnthState where
  output : AssistantMessage
  blockMap : List (Nat × BlockInfo) := []
  events : List StreamEventKind := []

/-- One wire event (`anthropic.py` lines 368-505).  Usage cost computation
(`calculate_cost`) is not embedded (floating point). -/
def anthStep (st : AnthState) (ev : AnthEvent) : AnthState :=
  match ev with
  | .message_start u =>
      let inp := u.input_tokens.getD 0
      let outp := u.output_tokens.getD 0
      let cr := u.cache_read_input_tokens.getD 0
      let cw := u.cache_creation_input_tokens.getD 0
      { st with output := { st.output with usage :=
          { input := inp, output := outp, cache_read := cr, cache_write := cw,
            total_tokens := inp + outp + cr + cw } } }
  | .content_block_start idx b =>
      match b with
      | .text =>
          let content := st.output.content ++ [.text { text := "" }]
          { output := { st.output with content := content },
            blockMap := bmSet st.blockMap idx { index := content.length - 1 },
            events := st.events ++ [.text_start (content.length - 1)] }
      | .thinking =>
          let content := st.output.content ++ [.thinking { thinking := "" }]
          { output := { st.output with content := content },
            blockMap := bmSet st.blockMap idx { index := content.length - 1 },
            events := st.events ++ [.thinking_start (content.length - 1)] }
      | .tool_use id name =>
          let content := st.output.content ++
            [.toolCall { id := id, name := name, arguments := .obj [] }]
          { output := { st.output with content := content },
            blockMap := bmSet st.blockMap idx { index := content.length - 1, partial_json := "" },
            events := st.events ++ [.toolcall_start (content.length - 1)] }
  | .content_block_delta idx d =>
      match bmGet st.blockMap idx with
      | none => st
      | some info =>
          match st.output.content.get? info.index, d with
          | some (.text tb), .text_delta t =>
              let content2 :=
                st.output.content.set info.index (.text { tb with text := tb.text ++ t })
              { st with
                output := { st.output with content := content2 },
                events := st.events ++ [.text_delta info.index t] }
          | some (.thinking tk), .thinking_delta t =>
              let content2 :=
                st.output.content.set info.index
                  (.thinking { tk with thinking := tk.thinking ++ t })
              { st with
                output := { st.output with content := content2 },
                events := st.events ++ [.thinking_delta info.index t] }
          | some (.toolCall tc), .input_json_delta pj =>
              let pj2 := info.partial_json ++ pj
              let content2 :=
                st.output.content.set info.index
                  (.toolCall { tc with
                    arguments := JsonParse.parse_streaming_json (some pj2) })
              { output := { st.output with content := content2 },
                blockMap := bmSet st.blockMap idx { info with partial_json := pj2 },
                events := st.events ++ [.toolcall_delta info.index pj] }
          | some (.thinking tk), .signature_delta sg =>
              let content2 :=
                st.output.content.set info.index
                  (.thinking { tk with
                    thinking_signature := some ((tk.thinking_signature.getD "") ++ sg) })
              { st with output := { st.output with content := content2 } }
          | _, _ => st
  | .content_block_stop idx =>
      match bmGet st.blockMap idx with
      | none => st
      | some info =>
          match st.output.content.get? info.index with
          | some (.text tb) =>
              { st with events := st.events ++ [.text_end info.index tb.text] }
          | some (.thinking tk) =>
              { st with events := st.events ++ [.thinking_end info.index tk.thinking] }
          | some (.toolCall tc) =>
              let tc2 : ToolCall := { tc with
                arguments := JsonParse.parse_streaming_json (some info.partial_json) }
              let content2 := st.output.content.set info.index (.toolCall tc2)
              { st with
                output := { st.output with content := content2 },
                events := st.events ++ [.toolcall_end info.index tc2] }
          | none => st
  | .message_delta sr u =>
      let st1 :=
        match sr with
        | some s =>
            if s ≠ "" then
              { st with output := { st.output with stop_reason := _map_stop_reason s } }
            else st
        | none => st
      match u with
      | some uu =>
          let usage := st1.output.usage
          let inp := uu.input_tokens.getD usage.input
          let outp := uu.output_tokens.getD usage.output
          let cr := uu.cache_read_input_tokens.getD usage.cache_read
          let cw := uu.cache_creation_input_tokens.getD usage.cache_write
          { st1 with output := { st1.output with usage :=
              { input := inp, output := outp, cache_read := cr, cache_write := cw,
                total_tokens := inp + outp + cr + cw } } }
      | none => st1

/-- The event-emission skeleton of `stream_anthropic` for one turn: `start`
is pushed first (line 363), the wire events are consumed, then `done` with
the accumulated stop reason (line 507); an exception after consuming `k`
events switches to the `except` branch, which pushes `error` with reason
`error` (line 513).  `exc = none` means no exception. -/
def stream_anthropic_events (model : ModelDesc) (now : Int)
    (events : List AnthEvent) (exc : Option Nat) : List StreamEventKind :=
  let outp : AssistantMessage :=
    { content := [], api := model.api, provider := model.provider,
      model := model.id, usage := {}, stop_reason := .stop, timestamp := now }
  let init : AnthState := { output := outp }
  match exc with
  | none =>
      let fin := events.foldl anthStep init
      .start :: fin.events ++ [.done fin.output.stop_reason]
  | some k =>
      let fin := (events.take k).foldl anthStep init
      .start :: fin.events ++ [.error .error]

/-- The reasons `DoneEvent` declares admissible
(`pi_ai/types.py` line 338: `Literal["stop", "length", "toolUse"]`). -/
def doneEventReasons : List StopReason := [.stop, .length, .toolUse]

/-- The reasons `ErrorEvent` declares admissible
(`pi_ai/types.py` line 348: `Literal["aborted", "error"]`). -/
def errorEventReasons : List StopReason := [.aborted, .error]

end Anthropic

namespace AgentLoop

/-! ### The agent loop (pi_agent/agent_loop.py)

`_run_loop` and `_execute_tool_calls` are embedded with the event stream
omitted: the embedding returns the payload of the final `agent_end` event
(the accumulated `new_messages`), which is what the claims are about.  The
transport invocation inside `_stream_assistant_response` is abstracted as
`streamFn`, the final assistant message as a function of the converted LLM
messages (the source does not pass the abort signal to the transport call,
`agent_loop.py` line 269).  Steering and follow-up callbacks are stateful
functions over a queue state `σ`; `none` models an unset callback.  The
abort signal is a `Bool` (whether the `asyncio.Event` is set), read only by
the code that actually receives it: `transform_context` and
`tool.execute`. -/

/-- `AgentToolResult` from `pi_agent/types.py`. -/
structure AgentToolResult where
  content : List UserBlock
  details : Json := .null
deriving Repr

/-- `AgentTool` from `pi_agent/types.py`: the executor receives the tool
call id, the validated arguments and the abort signal; an `Except.error` is
a raised Python exception (`on_update` is not embedded: it only emits
events). -/
structure AgentTool where
  name : String
  description : String := ""
  label : String := ""
  execute : String → Json → Bool → Except String AgentToolResult

/-- `validate_tool_arguments` (pi_ai/utils/validation.py lines 57-59): with
the optional `jsonschema` library unavailable the arguments are returned
unchanged; the jsonschema-backed path (an external library) is outside this
embedding. -/
def validate_tool_arguments (tool : AgentTool) (tc : ToolCall) : Json :=
  tc.arguments

/-- The callbacks and transport of one agent run
(`AgentLoopConfig` from `pi_agent/types.py`, restricted to the fields
`_run_loop` reads). -/
structure LoopConfig (σ : Type) where
  convertToLlm : List Message → List Message
  transformContext : Option (List Message → Bool → List Message) := none
  streamFn : List Message → AssistantMessage
  getSteering : Option (σ → List Message × σ) := none
  getFollowUp : Option (σ → List Message × σ) := none

/-- `_stream_assistant_response` (lines 213-305): transform the context,
convert to LLM messages, call the transport, append the final message to the
working context.  Returns the final message and the updated context. -/
def streamAssistantResponse {σ : Type} (cfg : LoopConfig σ) (signal : Bool)
    (ctx : List Message) : AssistantMessage × List Message :=
  let messages :=
    match cfg.transformContext with
    | some t => t ctx signal
    | none => ctx
  let final := cfg.streamFn (cfg.convertToLlm messages)
  (final, ctx ++ [.assistant final])

/-- A failing tool result carrying an error message as text. -/
def errorToolResult (s : String) : AgentToolResult :=
  { content := [.text { text := s }] }

/-- The synthetic result for a tool call skipped because of queued steering
(`_skip_tool_call`, lines 389-424). -/
def skipToolResult (now : Int) (tc : ToolCall) : ToolResultMessage :=
  { tool_call_id := tc.id, tool_name := tc.name,
    content := [.text { text := "Skipped due to queued user message." }],
    is_error := true, timestamp := now }

/-- `_execute_tool_calls` (lines 308-386): execute sequentially, resolving
each tool by name, catching executor exceptions into failing results, and
polling steering after each tool; a non-empty steering poll skips the
remaining calls.  Returns the tool results, the captured steering messages
and the updated queue state. -/
def executeToolCalls {σ : Type} (tools : List AgentTool) (signal : Bool)
    (getSteering : Option (σ → List Message × σ)) (now : Int) :
    List ToolCall → σ → List ToolResultMessage × Option (List Message) × σ
  | [], qs => ([], none, qs)
  | tc :: rest, qs =>
      let tool? := tools.find? (fun t => t.name = tc.name)
      let resultErr :=
        match tool? with
        | none => (errorToolResult ("Tool " ++ tc.name ++ " not found"), true)
        | some t =>
            match t.execute tc.id (validate_tool_arguments t tc) signal with
            | .ok r => (r, false)
            | .error e => (errorToolResult e, true)
      let trm : ToolResultMessage :=
        { tool_call_id := tc.id, tool_name := tc.name,
          content := resultErr.1.content, details := resultErr.1.details,
          is_error := resultErr.2, timestamp := now }
      match getSteering with
      | some g =>
          let (steer, qs2) := g qs
          if steer.isEmpty then
            let (results, sm, qs3) := executeToolCalls tools signal getSteering now rest qs2
            (trm :: results, sm, qs3)
          else
            (trm :: rest.map (skipToolResult now), some steer, qs2)
      | none =>
          let (results, sm, qs3) := executeToolCalls tools signal getSteering now rest qs
          (trm :: results, sm, qs3)

/-- The loop variables of `_run_loop`. -/
structure LoopState (σ : Type) where
  ctx : List Message
  newMessages : List Message
  pending : List Message
  hasMore : Bool
  qs : σ

/-- The combined outer/inner loop of `_run_loop` (lines 138-207), with fuel
for the unbounded iteration (`none` = fuel exhausted, the Python loop would
keep going).  Each inner iteration: append pending messages, stream an
assistant response, short-circuit to the final message list (the
`agent_end` payload) when its stop reason is `error` or `aborted`
(lines 164-168), execute tool calls, poll steering; on inner-loop exit, poll
follow-ups and either re-enter or finish. -/
def runLoopAux {σ : Type} (cfg : LoopConfig σ) (tools : List AgentTool)
    (signal : Bool) (now : Int) : Nat → LoopState σ → Option (List Message)
  | 0, _ => none
  | fuel + 1, st =>
      if st.hasMore || !st.pending.isEmpty then
        let ctx1 := st.ctx ++ st.pending
        let new1 := st.newMessages ++ st.pending
        let sr := streamAssistantResponse cfg signal ctx1
        let new2 := new1 ++ [.assistant sr.1]
        if sr.1.stop_reason = .error ∨ sr.1.stop_reason = .aborted then
          some new2
        else
          let tcs := Transform.toolCallsOf sr.1
          let hasMore2 := !tcs.isEmpty
          let exec :=
            if hasMore2 then executeToolCalls tools signal cfg.getSteering now tcs st.qs
            else ([], none, st.qs)
          let ctx3 := sr.2 ++ exec.1.map Message.toolResult
          let new3 := new2 ++ exec.1.map Message.toolResult
          let pendq :=
            match exec.2.1 with
            | some s => (s, exec.2.2)
            | none =>
                match cfg.getSteering with
                | some g => g exec.2.2
                | none => ([], exec.2.2)
          runLoopAux cfg tools signal now fuel
            { ctx := ctx3, newMessages := new3, pending := pendq.1,
              hasMore := hasMore2, qs := pendq.2 }
      else
        match cfg.getFollowUp with
        | some g =>
            let fu := g st.qs
            if fu.1.isEmpty then some st.newMessages
            else
              runLoopAux cfg tools signal now fuel
                { st with pending := fu.1, hasMore := true, qs := fu.2 }
        | none => some st.newMessages

/-- `_run_loop` (lines 121-210): collect the initial steering messages, then
run the loop with `has_more_tool_calls = True`. -/
def _run_loop {σ : Type} (cfg : LoopConfig σ) (tools : List AgentTool)
    (signal : Bool) (now : Int) (fuel : Nat) (ctx newMessages : List Message)
    (qs : σ) : Option (List Message) :=
  let pend0 :=
    match cfg.getSteering with
    | some g => g qs
    | none => ([], qs)
  runLoopAux cfg tools signal now fuel
    { ctx := ctx, newMessages := newMessages, pending := pend0.1,
      hasMore := true, qs := pend0.2 }

end AgentLoop

namespace AgentFacade

/-! ### The agent facade (pi_agent/agent.py)

The facade state, the synchronous guards of `prompt` / `continue_`, and the
listener fan-out `_emit`.  The asynchronous body `Agent._run_loop` is
abstracted as a state transformer `runLoop` handed to the guard functions:
the guards raise (returning the error string) strictly before it is
invoked. -/

/-- The fields of `AgentState` (pi_agent/types.py) together with the
facade's queues, as read and written by the synchronous entry points.  The
guard in `prompt` treats a missing model as an error, so `model` is an
`Option`. -/
structure FacadeState where
  system_prompt : String := ""
  model : Option ModelDesc := none
  messages : List Message := []
  is_streaming : Bool := false
  stream_message : Option Message := none
  pending_tool_calls : List String := []
  error : Option String := none
  steering_queue : List Message := []
  follow_up_queue : List Message := []

/-- The `input` parameter of `Agent.prompt`:
`str | AgentMessage | list[AgentMessage]`. -/
inductive PromptInput where
  | listOf (ms : List Message)
  | text (s : String)
  | single (m : Message)

/-- `Agent.prompt` (agent.py lines 266-302): raise if a run is active or no
model is configured — before any state mutation — otherwise build the user
message(s) and run the loop.  The returned `Option String` is the raised
`RuntimeError` message (`none` = no exception). -/
def prompt (a : FacadeState) (input : PromptInput) (images : List ImageContent)
    (now : Int) (runLoop : FacadeState → Option (List Message) → FacadeState) :
    FacadeState × Option String :=
  if a.is_streaming then
    (a, some "Agent is already processing a prompt. Use steer() or follow_up() to queue messages, or wait for completion.")
  else
    match a.model with
    | none => (a, some "No model configured")
    | some _ =>
        let msgs :=
          match input with
          | .listOf ms => ms
          | .text s =>
              let blocks : List UserBlock := .text { text := s } :: images.map .image
              [Message.user { content := .blocks blocks, timestamp := now }]
          | .single m => [m]
        (runLoop a (some msgs), none)

/-- `Agent.continue_` (agent.py lines 304-315): raise if a run is active,
the history is empty, or its last message is an assistant message — before
any state mutation — otherwise run the loop with no new messages. -/
def continue_ (a : FacadeState)
    (runLoop : FacadeState → Option (List Message) → FacadeState) :
    FacadeState × Option String :=
  if a.is_streaming then
    (a, some "Agent is already processing. Wait for completion before continuing.")
  else if a.messages.isEmpty then
    (a, some "No messages to continue from")
  else
    match a.messages.getLast? with
    | some (.assistant _) => (a, some "Cannot continue from message role: assistant")
    | _ => (runLoop a none, none)

/-- `Agent._emit` (agent.py lines 464-467): a plain loop over the listeners
with no exception handling; a listener returning `Except.error` is a raised
exception, which aborts the loop and propagates.  Returns how many listeners
were invoked and the propagated exception, if any.  (The Python listener set
is iterated in some order; the order is the list order here.) -/
def emitRun {α : Type} (listeners : List (α → Except String Unit)) (e : α) :
    Nat × Option String :=
  match listeners with
  | [] => (0, none)
  | l :: rest =>
      match l e with
      | .ok _ =>
          let r := emitRun rest e
          (r.1 + 1, r.2)
      | .error msg => (1, some msg)

end AgentFacade

/-! ### Concrete fixtures used by counterexamples and witnesses -/

/-- A concrete Anthropic model descriptor. -/
def mdlA : ModelDesc :=
  { id := "claude-x", name := "Claude X", api := "anthropic-messages",
    provider := "anthropic", base_url := "https://api.anthropic.com",
    reasoning := true, context_window := 200000, max_tokens := 8192 }

/-- Concrete tool call with id `"X"`. -/
def tcX : ToolCall := { id := "X", name := "get_time" }

/-- Concrete tool call with id `"Y"`. -/
def tcY : ToolCall := { id := "Y", name := "get_time" }

/-- A finalized assistant message (produced on `mdlA`) calling tools `X` and
`Y`. -/
def asstXY : AssistantMessage :=
  { content := [.toolCall tcX, .toolCall tcY], api := "anthropic-messages",
    provider := "anthropic", model := "claude-x", stop_reason := .toolUse,
    timestamp := 1 }

/-- A tool result answering only tool call `X`. -/
def trustX : ToolResultMessage :=
  { tool_call_id := "X", tool_name := "get_time",
    content := [.text { text := "12:00" }], timestamp := 2 }

/-- A user message closing a conversation. -/
def userHello : UserMessage := { content := .str "hello", timestamp := 3 }

/-- History ending in an assistant message with tool calls `X`, `Y` and a tool
result only for `X` (the spec's orphaned-tool-call scenario, with nothing
after it). -/
def orphanHistory : List Message := [.assistant asstXY, .toolResult trustX]

/-- A successful (stop) assistant message that consumed one input token. -/
def silentStopMsg : AssistantMessage :=
  { api := "anthropic-messages", provider := "anthropic", model := "claude-x",
    usage := { input := 1 }, stop_reason := .stop, timestamp := 0 }

/-- The same orphaned history followed by a user message. -/
def orphanHistoryUser : List Message :=
  [.assistant asstXY, .toolResult trustX, .user userHello]

/-- A wire stream consisting of a single `message_delta` with stop reason
`"refusal"`. -/
def refusalDelta : List Anthropic.AnthEvent := [.message_delta (some "refusal") none]

/-- A tool that returns `"12:00"`, ignoring the abort signal. -/
def c6Tool : AgentLoop.AgentTool :=
  { name := "get_time",
    execute := fun _ _ _ => .ok { content := [.text { text := "12:00" }] } }

/-- First LLM turn of the C6 scenario: a tool call. -/
def c6Asst1 : AssistantMessage :=
  { content := [.toolCall tcX], api := "anthropic-messages",
    provider := "anthropic", model := "claude-x", stop_reason := .toolUse,
    timestamp := 10 }

/-- Second LLM turn of the C6 scenario: a plain stop. -/
def c6Asst2 : AssistantMessage :=
  { content := [.text { text := "done" }], api := "anthropic-messages",
    provider := "anthropic", model := "claude-x", stop_reason := .stop,
    timestamp := 11 }

/-- A transport that ignores the abort signal (as the real transport call
does — the loop never hands it the signal): first turn calls a tool, second
turn stops. -/
def c6StreamFn (msgs : List Message) : AssistantMessage :=
  if (msgs.filter isAssistant).isEmpty then c6Asst1 else c6Asst2

/-- Loop configuration of the C6 counterexample: no steering, no follow-ups,
identity conversion. -/
def c6Config : AgentLoop.LoopConfig Unit :=
  { convertToLlm := fun ms => ms, streamFn := c6StreamFn }

/-- The tool result produced in the C6 counterexample run. -/
def c6ToolResult : ToolResultMessage :=
  { tool_call_id := "X", tool_name := "get_time",
    content := [.text { text := "12:00" }], is_error := false, timestamp := 5 }

/-- An assistant message finalized with `stop_reason = aborted` (what a
cooperating transport surfaces on abort). -/
def c6AbortAsst : AssistantMessage :=
  { content := [], api := "anthropic-messages", provider := "anthropic",
    model := "claude-x", stop_reason := .aborted, timestamp := 12 }

/-- Loop configuration whose transport surfaces an aborted message. -/
def c6AbortCfg : AgentLoop.LoopConfig Unit :=
  { convertToLlm := fun ms => ms, streamFn := fun _ => c6AbortAsst }

/-- A listener that raises. -/
def badListener : Unit → Except String Unit := fun _ => .error "listener boom"

/-- A listener that returns normally. -/
def goodListener : Unit → Except String Unit := fun _ => .ok ()

/-- A facade mid-run (`is_streaming = true`). -/
def busyFacade : AgentFacade.FacadeState :=
  { model := some mdlA, is_streaming := true }

/-- An idle facade with an empty history. -/
def idleEmptyFacade : AgentFacade.FacadeState := { model := some mdlA }

/-- An idle facade whose history ends in an assistant message. -/
def idleAssistantTailFacade : AgentFacade.FacadeState :=
  { model := some mdlA, messages := [.assistant asstXY] }

namespace Transform

/-- The ids recorded into `existing_tool_result_ids` while scanning a chunk of
tool-result messages. -/
def accumIds (trs : List ToolResultMessage) (e : List String) : List String :=
  trs.foldl (fun acc tr => tr.tool_call_id :: acc) e

end Transform

/-- An assistant message whose content is a fixed point of the first
transformer pass (for the given target model and normalizer), contributing no
`tool_call_id_map` entries.  Every assistant message output by
`transform_messages` has this property when the normalizer is idempotent. -/
def assistantStable (model : ModelDesc) (f : Option Transform.Normalizer)
    (am : AssistantMessage) : Prop :=
  ∀ (am2 : AssistantMessage) (m2 : List (String × String)),
    Transform.firstPassBlocks model f am2 (Transform.isSameModel am model) am.content m2 =
      (am.content, m2)

/-! ## Theorems -/

theorem replaceIdChar_allowed (c : Char) : allowedIdChar (replaceIdChar c) = true := by
  unfold replaceIdChar
  by_cases h : allowedIdChar c = true
  · simp [h]
  · simp [h]
    rfl

theorem replaceIdChar_idem (c : Char) : replaceIdChar (replaceIdChar c) = replaceIdChar c := by
  unfold replaceIdChar
  by_cases h : allowedIdChar c = true
  · simp [h]
  · simp [h]

theorem map_replaceIdChar_idem (l : List Char) :
    (l.map replaceIdChar).map replaceIdChar = l.map replaceIdChar := by
  induction l with
  | nil => rfl
  | cons c cs ih => simp [List.map_cons, replaceIdChar_idem, ih]

/-- C10: the Anthropic tool-call-id normalization is canonical and
idempotent: the result is at most 64 characters long, consists only of
characters in `[A-Za-z0-9_-]`, and renormalizing is the identity. -/
theorem normalize_tool_call_id_canonical (s : String) :
    (normalize_tool_call_id s).length ≤ 64 ∧
    (normalize_tool_call_id s).data.all allowedIdChar = true ∧
    normalize_tool_call_id (normalize_tool_call_id s) = normalize_tool_call_id s := by
  refine ⟨?_, ?_, ?_⟩
  · show ((s.data.map replaceIdChar).take 64).length ≤ 64
    rw [List.length_take]
    exact min_le_left _ _
  · rw [List.all_eq_true]
    intro c hc
    have hc' : c ∈ s.data.map replaceIdChar := List.mem_of_mem_take hc
    obtain ⟨a, _, rfl⟩ := List.mem_map.mp hc'
    exact replaceIdChar_allowed a
  · show String.mk ((((s.data.map replaceIdChar).take 64).map replaceIdChar).take 64) =
      String.mk ((s.data.map replaceIdChar).take 64)
    rw [List.map_take, map_replaceIdChar_idem, List.take_take, min_self]

namespace Transform

theorem mem_secondPass (now : Int) :
    ∀ (l : List Message) (p : List ToolCall) (e : List String) (m : Message),
      m ∈ secondPass now p e l →
      (∃ tr, m = Message.toolResult tr) ∨ (m ∈ l ∧ isErroredAssistant m = false) := by
  intro l
  induction l with
  | nil =>
      intro p e m hm
      simp [secondPass] at hm
  | cons hd tl ih =>
      intro p e m hm
      have tail_case : ∀ (p' : List ToolCall) (e' : List String),
          m ∈ secondPass now p' e' tl →
          (∃ tr, m = Message.toolResult tr) ∨
            (m ∈ hd :: tl ∧ isErroredAssistant m = false) := by
        intro p' e' h
        rcases ih p' e' m h with h1 | ⟨h2a, h2b⟩
        · exact Or.inl h1
        · exact Or.inr ⟨List.mem_cons_of_mem _ h2a, h2b⟩
      have synth_case : ∀ (trs : List ToolResultMessage),
          m ∈ trs.map Message.toolResult →
          (∃ tr, m = Message.toolResult tr) ∨
            (m ∈ hd :: tl ∧ isErroredAssistant m = false) := by
        intro trs h
        obtain ⟨tr, _, rfl⟩ := List.mem_map.mp h
        exact Or.inl ⟨tr, rfl⟩
      cases hd with
      | user u =>
          rw [secondPass] at hm
          by_cases hp : p.isEmpty
          · rw [if_pos hp] at hm
            rcases List.mem_cons.mp hm with h | h
            · exact Or.inr ⟨h ▸ List.mem_cons_self _ _, h ▸ rfl⟩
            · exact tail_case _ _ h
          · rw [if_neg hp] at hm
            rcases List.mem_append.mp hm with h | h
            · exact synth_case _ h
            · rcases List.mem_cons.mp h with h | h
              · exact Or.inr ⟨h ▸ List.mem_cons_self _ _, h ▸ rfl⟩
              · exact tail_case _ _ h
      | toolResult tr =>
          rw [secondPass] at hm
          rcases List.mem_cons.mp hm with h | h
          · exact Or.inr ⟨h ▸ List.mem_cons_self _ _, h ▸ rfl⟩
          · exact tail_case _ _ h
      | assistant am =>
          rw [secondPass] at hm
          by_cases herr : am.stop_reason = .error ∨ am.stop_reason = .aborted
          · rw [if_pos herr] at hm
            rcases List.mem_append.mp hm with h | h
            · by_cases hp : p.isEmpty
              · simp [hp] at h
              · rw [if_neg hp] at h
                exact synth_case _ h
            · exact tail_case _ _ h
          · rw [if_neg herr] at hm
            by_cases htcs : (toolCallsOf am).isEmpty
            · rw [if_pos htcs] at hm
              rcases List.mem_append.mp hm with h | h
              · by_cases hp : p.isEmpty
                · simp [hp] at h
                · rw [if_neg hp] at h
                  exact synth_case _ h
              · rcases List.mem_cons.mp h with h | h
                · refine Or.inr ⟨h ▸ List.mem_cons_self _ _, ?_⟩
                  subst h
                  simp [isErroredAssistant]
                  exact ⟨fun h1 => herr (Or.inl h1), fun h2 => herr (Or.inr h2)⟩
                · exact tail_case _ _ h
            · rw [if_neg htcs] at hm
              rcases List.mem_append.mp hm with h | h
              · by_cases hp : p.isEmpty
                · simp [hp] at h
                · rw [if_neg hp] at h
                  exact synth_case _ h
              · rcases List.mem_cons.mp h with h | h
                · refine Or.inr ⟨h ▸ List.mem_cons_self _ _, ?_⟩
                  subst h
                  simp [isErroredAssistant]
                  exact ⟨fun h1 => herr (Or.inl h1), fun h2 => herr (Or.inr h2)⟩
                · exact tail_case _ _ h

theorem mem_synthFor (now : Int) {p : List ToolCall} {e : List String} {tc : ToolCall}
    (hp : tc ∈ p) (he : tc.id ∉ e) : synthResult now tc ∈ synthFor now p e := by
  unfold synthFor
  exact List.mem_filterMap.mpr ⟨tc, hp, by simp [he]⟩

/-- If the repaired tail contains an assistant or user message, then every
pending tool call either already had a recorded result id or gets answered by
some tool result in the repaired tail. -/
theorem secondPass_pending_resolved (now : Int) :
    ∀ (l : List Message) (p : List ToolCall) (e : List String),
      (∃ b ∈ secondPass now p e l, isTurnBoundary b = true) →
      ∀ tc ∈ p, tc.id ∈ e ∨ ∃ m ∈ secondPass now p e l, isResultFor tc.id m = true := by
  intro l
  induction l with
  | nil =>
      intro p e hb tc htc
      simp [secondPass] at hb
  | cons hd tl ih =>
      intro p e hb tc htc
      cases hd with
      | toolResult tr =>
          rw [secondPass] at hb ⊢
          by_cases hid : tc.id = tr.tool_call_id
          · refine Or.inr ⟨Message.toolResult tr, List.mem_cons_self _ _, ?_⟩
            simp [isResultFor, hid]
          · have hb' : ∃ b ∈ secondPass now p (tr.tool_call_id :: e) tl, isTurnBoundary b = true := by
              obtain ⟨b, hbm, hbt⟩ := hb
              rcases List.mem_cons.mp hbm with h | h
              · subst h
                simp [isTurnBoundary] at hbt
              · exact ⟨b, h, hbt⟩
            rcases ih p (tr.tool_call_id :: e) hb' tc htc with h | ⟨m, hmm, hmr⟩
            · rcases List.mem_cons.mp h with h | h
              · exact absurd h hid
              · exact Or.inl h
            · exact Or.inr ⟨m, List.mem_cons_of_mem _ hmm, hmr⟩
      | user u =>
          by_cases hp : p.isEmpty
          · rw [List.isEmpty_iff] at hp
            subst hp
            simp at htc
          · by_cases he : tc.id ∈ e
            · exact Or.inl he
            · refine Or.inr ⟨Message.toolResult (synthResult now tc), ?_, by simp [isResultFor, synthResult]⟩
              rw [secondPass, if_neg hp]
              refine List.mem_append.mpr (Or.inl ?_)
              exact List.mem_map.mpr ⟨synthResult now tc, mem_synthFor now htc he, rfl⟩
      | assistant am =>
          by_cases hp : p.isEmpty
          · rw [List.isEmpty_iff] at hp
            subst hp
            simp at htc
          · by_cases he : tc.id ∈ e
            · exact Or.inl he
            · refine Or.inr ⟨Message.toolResult (synthResult now tc), ?_, by simp [isResultFor, synthResult]⟩
              rw [secondPass]
              have hmem : Message.toolResult (synthResult now tc) ∈
                  (if p.isEmpty = true then ([] : List Message)
                    else (synthFor now p e).map Message.toolResult) := by
                rw [if_neg hp]
                exact List.mem_map.mpr ⟨synthResult now tc, mem_synthFor now htc he, rfl⟩
              by_cases herr : am.stop_reason = .error ∨ am.stop_reason = .aborted
              · rw [if_pos herr]
                exact List.mem_append.mpr (Or.inl hmem)
              · rw [if_neg herr]
                by_cases htcs : (toolCallsOf am).isEmpty
                · rw [if_pos htcs]
                  exact List.mem_append.mpr (Or.inl hmem)
                · rw [if_neg htcs]
                  exact List.mem_append.mpr (Or.inl hmem)

/-- Splitting an assistant message out of a list that starts with a chunk of
tool results: the split point must lie after the chunk. -/
theorem toolResult_chunk_split (trs : List ToolResultMessage) :
    ∀ (out pre post : List Message) (am : AssistantMessage),
      trs.map Message.toolResult ++ out = pre ++ Message.assistant am :: post →
      ∃ pre2, out = pre2 ++ Message.assistant am :: post := by
  induction trs with
  | nil =>
      intro out pre post am h
      exact ⟨pre, by simpa using h⟩
  | cons t ts ih =>
      intro out pre post am h
      rw [List.map_cons, List.cons_append, List.cons_eq_append_iff] at h
      rcases h with ⟨_, h2⟩ | ⟨pre1, _, h2⟩
      · exact absurd h2.symm (by simp)
      · exact ih out pre1 post am h2

/-- Splitting an assistant cons cell against `pre ++ assistant :: post`. -/
theorem assistant_cons_split {am2 am : AssistantMessage} {rec pre2 post : List Message}
    (h : Message.assistant am2 :: rec = pre2 ++ Message.assistant am :: post) :
    (am2 = am ∧ post = rec) ∨ ∃ pre3, rec = pre3 ++ Message.assistant am :: post := by
  cases pre2 with
  | nil =>
      rw [List.nil_append] at h
      obtain ⟨h1, h2⟩ := List.cons_eq_cons.mp h
      left
      constructor
      · injection h1 with h3
      · exact h2.symm
  | cons x xs =>
      rw [List.cons_append] at h
      obtain ⟨h1, h2⟩ := List.cons_eq_cons.mp h
      exact Or.inr ⟨xs, h2⟩

/-- Every assistant message in the output of the second pass that is followed
by a later assistant or user message has all its tool calls answered by a
later tool result. -/
theorem secondPass_orphan_free (now : Int) :
    ∀ (l : List Message) (p : List ToolCall) (e : List String)
      (pre post : List Message) (am : AssistantMessage),
      secondPass now p e l = pre ++ Message.assistant am :: post →
      ∀ tc ∈ toolCallsOf am,
        (∃ b ∈ post, isTurnBoundary b = true) →
        ∃ m ∈ post, isResultFor tc.id m = true := by
  intro l
  induction l with
  | nil =>
      intro p e pre post am hout tc htc hb
      rw [secondPass] at hout
      exact absurd hout.symm (by simp)
  | cons hd tl ih =>
      intro p e pre post am hout tc htc hb
      cases hd with
      | toolResult tr =>
          rw [secondPass, List.cons_eq_append_iff] at hout
          rcases hout with ⟨_, h2⟩ | ⟨pre1, _, h2⟩
          · exact absurd h2.symm (by simp)
          · exact ih _ _ pre1 post am h2 tc htc hb
      | user u =>
          by_cases hp : p.isEmpty
          · rw [secondPass, if_pos hp, List.cons_eq_append_iff] at hout
            rcases hout with ⟨_, h2⟩ | ⟨pre1, _, h2⟩
            · exact absurd h2.symm (by simp)
            · exact ih _ _ pre1 post am h2 tc htc hb
          · rw [secondPass, if_neg hp] at hout
            obtain ⟨pre1, h1⟩ := toolResult_chunk_split _ _ _ _ _ hout
            rw [List.cons_eq_append_iff] at h1
            rcases h1 with ⟨_, h2⟩ | ⟨pre2, _, h2⟩
            · exact absurd h2.symm (by simp)
            · exact ih _ _ pre2 post am h2 tc htc hb
      | assistant am2 =>
          rw [secondPass] at hout
          by_cases herr : am2.stop_reason = .error ∨ am2.stop_reason = .aborted
          · rw [if_pos herr] at hout
            have hsplit : ∃ pre2,
                secondPass now [] (if p.isEmpty = true then e else []) tl =
                  pre2 ++ Message.assistant am :: post := by
              by_cases hp : p.isEmpty
              · rw [if_pos hp] at hout
                exact ⟨pre, by simpa using hout⟩
              · rw [if_neg hp] at hout
                exact toolResult_chunk_split _ _ _ _ _ hout
            obtain ⟨pre2, h2⟩ := hsplit
            exact ih _ _ pre2 post am h2 tc htc hb
          · rw [if_neg herr] at hout
            by_cases htcs : (toolCallsOf am2).isEmpty
            · rw [if_pos htcs] at hout
              have hsplit : ∃ pre2,
                  (Message.assistant am2 ::
                    secondPass now [] (if p.isEmpty = true then e else []) tl) =
                    pre2 ++ Message.assistant am :: post := by
                by_cases hp : p.isEmpty
                · rw [if_pos hp] at hout
                  exact ⟨pre, by simpa using hout⟩
                · rw [if_neg hp] at hout
                  exact toolResult_chunk_split _ _ _ _ _ hout
              obtain ⟨pre2, h2⟩ := hsplit
              rcases assistant_cons_split h2 with ⟨ham, hpost⟩ | ⟨pre3, h3⟩
              · subst ham
                rw [List.isEmpty_iff] at htcs
                rw [htcs] at htc
                simp at htc
              · exact ih _ _ pre3 post am h3 tc htc hb
            · rw [if_neg htcs] at hout
              have hsplit : ∃ pre2,
                  (Message.assistant am2 ::
                    secondPass now (toolCallsOf am2) [] tl) =
                    pre2 ++ Message.assistant am :: post := by
                by_cases hp : p.isEmpty
                · rw [if_pos hp] at hout
                  exact ⟨pre, by simpa using hout⟩
                · rw [if_neg hp] at hout
                  exact toolResult_chunk_split _ _ _ _ _ hout
              obtain ⟨pre2, h2⟩ := hsplit
              rcases assistant_cons_split h2 with ⟨ham, hpost⟩ | ⟨pre3, h3⟩
              · subst ham
                rw [hpost] at hb ⊢
                rcases secondPass_pending_resolved now tl (toolCallsOf am2) [] hb tc htc with h | h
                · simp at h
                · exact h
              · exact ih _ _ pre3 post am h3 tc htc hb

/-- Step lemma: tool-result message. -/
theorem secondPass_step_toolResult (now : Int) (p : List ToolCall) (e : List String)
    (tr : ToolResultMessage) (tl : List Message) :
    secondPass now p e (.toolResult tr :: tl) =
      .toolResult tr :: secondPass now p (tr.tool_call_id :: e) tl := by
  rw [secondPass]

/-- Step lemma: user message, no pending tool calls. -/
theorem secondPass_step_user_nilp (now : Int) (e : List String) (u : UserMessage)
    (tl : List Message) :
    secondPass now [] e (.user u :: tl) = .user u :: secondPass now [] e tl := by
  rw [secondPass]
  simp

/-- Step lemma: user message flushing pending tool calls. -/
theorem secondPass_step_user_flush (now : Int) (p : List ToolCall) (e : List String)
    (u : UserMessage) (tl : List Message) (hp : p.isEmpty = false) :
    secondPass now p e (.user u :: tl) =
      (synthFor now p e).map Message.toolResult ++
        .user u :: secondPass now [] [] tl := by
  rw [secondPass]
  simp [hp]

/-- Step lemma: errored assistant, no pending tool calls. -/
theorem secondPass_step_asst_err_nilp (now : Int) (e : List String) (am : AssistantMessage)
    (tl : List Message) (herr : am.stop_reason = .error ∨ am.stop_reason = .aborted) :
    secondPass now [] e (.assistant am :: tl) = secondPass now [] e tl := by
  rw [secondPass, if_pos herr]
  simp

/-- Step lemma: kept assistant without tool calls, no pending tool calls. -/
theorem secondPass_step_asst_keep_nilp (now : Int) (e : List String) (am : AssistantMessage)
    (tl : List Message) (herr : ¬(am.stop_reason = .error ∨ am.stop_reason = .aborted))
    (htcs : (toolCallsOf am).isEmpty = true) :
    secondPass now [] e (.assistant am :: tl) =
      .assistant am :: secondPass now [] e tl := by
  rw [secondPass, if_neg herr, if_pos htcs]
  simp

/-- Step lemma: kept assistant with tool calls, no pending tool calls. -/
theorem secondPass_step_asst_tcs_nilp (now : Int) (e : List String) (am : AssistantMessage)
    (tl : List Message) (herr : ¬(am.stop_reason = .error ∨ am.stop_reason = .aborted))
    (htcs : (toolCallsOf am).isEmpty = false) :
    secondPass now [] e (.assistant am :: tl) =
      .assistant am :: secondPass now (toolCallsOf am) [] tl := by
  rw [secondPass, if_neg herr, if_neg (by simp [htcs])]
  simp

/-- Step lemma: errored assistant flushing pending tool calls. -/
theorem secondPass_step_asst_err_flush (now : Int) (p : List ToolCall) (e : List String)
    (am : AssistantMessage) (tl : List Message) (hp : p.isEmpty = false)
    (herr : am.stop_reason = .error ∨ am.stop_reason = .aborted) :
    secondPass now p e (.assistant am :: tl) =
      (synthFor now p e).map Message.toolResult ++ secondPass now [] [] tl := by
  rw [secondPass, if_pos herr]
  simp [hp]

/-- Step lemma: kept assistant without tool calls, flushing pending tool
calls. -/
theorem secondPass_step_asst_keep_flush (now : Int) (p : List ToolCall) (e : List String)
    (am : AssistantMessage) (tl : List Message) (hp : p.isEmpty = false)
    (herr : ¬(am.stop_reason = .error ∨ am.stop_reason = .aborted))
    (htcs : (toolCallsOf am).isEmpty = true) :
    secondPass now p e (.assistant am :: tl) =
      (synthFor now p e).map Message.toolResult ++
        .assistant am :: secondPass now [] [] tl := by
  rw [secondPass, if_neg herr, if_pos htcs]
  simp [hp]

/-- Step lemma: kept assistant with tool calls, flushing pending tool calls. -/
theorem secondPass_step_asst_tcs_flush (now : Int) (p : List ToolCall) (e : List String)
    (am : AssistantMessage) (tl : List Message) (hp : p.isEmpty = false)
    (herr : ¬(am.stop_reason = .error ∨ am.stop_reason = .aborted))
    (htcs : (toolCallsOf am).isEmpty = false) :
    secondPass now p e (.assistant am :: tl) =
      (synthFor now p e).map Message.toolResult ++
        .assistant am :: secondPass now (toolCallsOf am) [] tl := by
  rw [secondPass, if_neg herr, if_neg (by simp [htcs])]
  simp [hp]

/-- With no pending tool calls, the second pass ignores
`existing_tool_result_ids` entirely. -/
theorem secondPass_existing_irrelevant (now : Int) :
    ∀ (l : List Message) (e e2 : List String),
      secondPass now [] e l = secondPass now [] e2 l := by
  intro l
  induction l with
  | nil => intro e e2; rfl
  | cons hd tl ih =>
      intro e e2
      cases hd with
      | toolResult tr =>
          rw [secondPass_step_toolResult, secondPass_step_toolResult,
            ih (tr.tool_call_id :: e) (tr.tool_call_id :: e2)]
      | user u =>
          rw [secondPass_step_user_nilp, secondPass_step_user_nilp, ih e e2]
      | assistant am =>
          by_cases herr : am.stop_reason = .error ∨ am.stop_reason = .aborted
          · rw [secondPass_step_asst_err_nilp now e am tl herr,
              secondPass_step_asst_err_nilp now e2 am tl herr, ih e e2]
          · cases htcs : (toolCallsOf am).isEmpty
            · rw [secondPass_step_asst_tcs_nilp now e am tl herr htcs,
                secondPass_step_asst_tcs_nilp now e2 am tl herr htcs]
            · rw [secondPass_step_asst_keep_nilp now e am tl herr htcs,
                secondPass_step_asst_keep_nilp now e2 am tl herr htcs, ih e e2]

/-- If every pending tool call is covered, no synthetic results are produced. -/
theorem synthFor_covered (now : Int) {p : List ToolCall} {e : List String}
    (h : ∀ tc ∈ p, tc.id ∈ e) : synthFor now p e = [] := by
  unfold synthFor
  rw [List.filterMap_eq_nil_iff]
  intro tc htc
  simp [h tc htc]

/-- With every pending tool call covered by a recorded result id, the second
pass behaves as if no tool calls were pending. -/
theorem secondPass_covered (now : Int) :
    ∀ (l : List Message) (p : List ToolCall) (e : List String),
      (∀ tc ∈ p, tc.id ∈ e) →
      secondPass now p e l = secondPass now [] [] l := by
  intro l
  induction l with
  | nil => intro p e _; rfl
  | cons hd tl ih =>
      intro p e hcov
      have hcov2 : ∀ (x : String), ∀ tc ∈ p, tc.id ∈ x :: e :=
        fun x tc htc => List.mem_cons_of_mem _ (hcov tc htc)
      cases hp : p.isEmpty
      · cases hd with
        | toolResult tr =>
            rw [secondPass_step_toolResult, secondPass_step_toolResult,
              ih p (tr.tool_call_id :: e) (hcov2 _),
              secondPass_existing_irrelevant now tl [tr.tool_call_id] []]
        | user u =>
            rw [secondPass_step_user_flush now p e u tl hp,
              synthFor_covered now hcov]
            rw [secondPass_step_user_nilp]
            simp
        | assistant am =>
            by_cases herr : am.stop_reason = .error ∨ am.stop_reason = .aborted
            · rw [secondPass_step_asst_err_flush now p e am tl hp herr,
                synthFor_covered now hcov,
                secondPass_step_asst_err_nilp now [] am tl herr]
              simp
            · cases htcs : (toolCallsOf am).isEmpty
              · rw [secondPass_step_asst_tcs_flush now p e am tl hp herr htcs,
                  synthFor_covered now hcov,
                  secondPass_step_asst_tcs_nilp now [] am tl herr htcs]
                simp
              · rw [secondPass_step_asst_keep_flush now p e am tl hp herr htcs,
                  synthFor_covered now hcov,
                  secondPass_step_asst_keep_nilp now [] am tl herr htcs]
                simp
      · have hpe : p = [] := List.isEmpty_iff.mp hp
        subst hpe
        cases hd with
        | toolResult tr =>
            rw [secondPass_step_toolResult, secondPass_step_toolResult,
              ih [] (tr.tool_call_id :: e) (by simp),
              secondPass_existing_irrelevant now tl [tr.tool_call_id] []]
        | user u =>
            rw [secondPass_step_user_nilp, secondPass_step_user_nilp,
              secondPass_existing_irrelevant now tl e []]
        | assistant am =>
            by_cases herr : am.stop_reason = .error ∨ am.stop_reason = .aborted
            · rw [secondPass_step_asst_err_nilp now e am tl herr,
                secondPass_step_asst_err_nilp now [] am tl herr,
                secondPass_existing_irrelevant now tl e []]
            · cases htcs : (toolCallsOf am).isEmpty
              · rw [secondPass_step_asst_tcs_nilp now e am tl herr htcs,
                  secondPass_step_asst_tcs_nilp now [] am tl herr htcs]
              · rw [secondPass_step_asst_keep_nilp now e am tl herr htcs,
                  secondPass_step_asst_keep_nilp now [] am tl herr htcs,
                  secondPass_existing_irrelevant now tl e []]

/-- The second pass walks through a chunk of tool-result messages by recording
their ids. -/
theorem secondPass_toolResult_chunk (now : Int) :
    ∀ (trs : List ToolResultMessage) (p : List ToolCall) (e : List String)
      (rest : List Message),
      secondPass now p e (trs.map Message.toolResult ++ rest) =
        trs.map Message.toolResult ++ secondPass now p (accumIds trs e) rest := by
  intro trs
  induction trs with
  | nil => intro p e rest; rfl
  | cons t ts ih =>
      intro p e rest
      rw [List.map_cons, List.cons_append, secondPass_step_toolResult, ih]
      rfl

theorem mem_accumIds_of_mem (x : String) :
    ∀ (trs : List ToolResultMessage) (e : List String), x ∈ e → x ∈ accumIds trs e := by
  intro trs
  induction trs with
  | nil => intro e h; exact h
  | cons t ts ih =>
      intro e h
      exact ih _ (List.mem_cons_of_mem _ h)

theorem mem_accumIds_of_id {tr : ToolResultMessage} :
    ∀ (trs : List ToolResultMessage) (e : List String), tr ∈ trs →
      tr.tool_call_id ∈ accumIds trs e := by
  intro trs
  induction trs with
  | nil => intro e h; simp at h
  | cons t ts ih =>
      intro e h
      rcases List.mem_cons.mp h with h1 | h1
      · subst h1
        show tr.tool_call_id ∈ accumIds ts (tr.tool_call_id :: e)
        exact mem_accumIds_of_mem _ _ _ (List.mem_cons_self _ _)
      · show tr.tool_call_id ∈ accumIds ts (t.tool_call_id :: e)
        exact ih _ h1

/-- After flushing, the pending tool calls are all covered by the recorded
result ids. -/
theorem synthFor_cover (now : Int) (p : List ToolCall) (e : List String) :
    ∀ tc ∈ p, tc.id ∈ accumIds (synthFor now p e) e := by
  intro tc htc
  by_cases he : tc.id ∈ e
  · exact mem_accumIds_of_mem _ _ _ he
  · have hmem : synthResult now tc ∈ synthFor now p e := mem_synthFor now htc he
    have hid : (synthResult now tc).tool_call_id = tc.id := rfl
    rw [← hid]
    exact mem_accumIds_of_id _ _ hmem

/-- Applying the second pass to its own output is the identity — for any
wall-clock value on the second run, because the second run synthesizes
nothing. -/
theorem secondPass_idem (now now2 : Int) :
    ∀ (l : List Message) (p : List ToolCall) (e : List String),
      secondPass now2 p e (secondPass now p e l) = secondPass now p e l := by
  intro l
  induction l with
  | nil => intro p e; rfl
  | cons hd tl ih =>
      intro p e
      cases hd with
      | toolResult tr =>
          rw [secondPass_step_toolResult, secondPass_step_toolResult,
            ih p (tr.tool_call_id :: e)]
      | user u =>
          cases hp : p.isEmpty
          · rw [secondPass_step_user_flush now p e u tl hp,
              secondPass_toolResult_chunk,
              secondPass_step_user_flush now2 p (accumIds (synthFor now p e) e) u
                (secondPass now [] [] tl) hp,
              synthFor_covered now2 (synthFor_cover now p e),
              ih [] []]
            simp
          · have hpe : p = [] := List.isEmpty_iff.mp hp
            subst hpe
            rw [secondPass_step_user_nilp, secondPass_step_user_nilp, ih [] e]
      | assistant am =>
          by_cases herr : am.stop_reason = .error ∨ am.stop_reason = .aborted
          · cases hp : p.isEmpty
            · rw [secondPass_step_asst_err_flush now p e am tl hp herr,
                secondPass_toolResult_chunk,
                secondPass_covered now2 _ _ _ (synthFor_cover now p e),
                ih [] []]
            · have hpe : p = [] := List.isEmpty_iff.mp hp
              subst hpe
              rw [secondPass_step_asst_err_nilp now e am tl herr, ih [] e]
          · cases htcs : (toolCallsOf am).isEmpty
            · cases hp : p.isEmpty
              · rw [secondPass_step_asst_tcs_flush now p e am tl hp herr htcs,
                  secondPass_toolResult_chunk,
                  secondPass_step_asst_tcs_flush now2 p
                    (accumIds (synthFor now p e) e) am
                    (secondPass now (toolCallsOf am) [] tl) hp herr htcs,
                  synthFor_covered now2 (synthFor_cover now p e),
                  ih (toolCallsOf am) []]
                simp
              · have hpe : p = [] := List.isEmpty_iff.mp hp
                subst hpe
                rw [secondPass_step_asst_tcs_nilp now e am tl herr htcs,
                  secondPass_step_asst_tcs_nilp now2 e am
                    (secondPass now (toolCallsOf am) [] tl) herr htcs,
                  ih (toolCallsOf am) []]
            · cases hp : p.isEmpty
              · rw [secondPass_step_asst_keep_flush now p e am tl hp herr htcs,
                  secondPass_toolResult_chunk,
                  secondPass_step_asst_keep_flush now2 p
                    (accumIds (synthFor now p e) e) am
                    (secondPass now [] [] tl) hp herr htcs,
                  synthFor_covered now2 (synthFor_cover now p e),
                  ih [] []]
                simp
              · have hpe : p = [] := List.isEmpty_iff.mp hp
                subst hpe
                rw [secondPass_step_asst_keep_nilp now e am tl herr htcs,
                  secondPass_step_asst_keep_nilp now2 e am
                    (secondPass now [] e tl) herr htcs,
                  ih [] e]

theorem stripThought_id (s : Bool) (tc : ToolCall) : (stripThought s tc).id = tc.id := by
  unfold stripThought
  split <;> rfl

theorem stripThought_same (tc : ToolCall) : stripThought true tc = tc := by
  unfold stripThought
  simp

theorem stripThought_sig_falsy (tc : ToolCall) :
    truthyOpt (stripThought false tc).thought_signature = false := by
  unfold stripThought
  by_cases h : truthyOpt tc.thought_signature = true
  · rw [if_pos (by simp [h])]
    rfl
  · rw [if_neg (by simp [h])]
    simpa using h

theorem stripThought_of_sig_falsy {tc : ToolCall}
    (h : truthyOpt tc.thought_signature = false) : stripThought false tc = tc := by
  unfold stripThought
  rw [if_neg (by simp [h])]

/-- Re-transforming the content produced by the first pass is the identity and
produces no `tool_call_id_map` entries, provided the normalizer is idempotent
(`hf`). -/
theorem firstPassBlocks_stable (model : ModelDesc) (f : Option Normalizer)
    (hf : ∀ (g : Normalizer), f = some g → ∀ (id : String) (a a2 : AssistantMessage),
      g (g id model a) model a2 = g id model a)
    (am am2 : AssistantMessage) (isSame : Bool) :
    ∀ (bs : List ContentBlock) (m m2 : List (String × String)),
      firstPassBlocks model f am2 isSame
          (firstPassBlocks model f am isSame bs m).1 m2 =
        ((firstPassBlocks model f am isSame bs m).1, m2) := by
  intro bs
  induction bs with
  | nil => intro m m2; rfl
  | cons b bs ih =>
      intro m m2
      cases b with
      | thinking tk =>
          by_cases hsig : (isSame && truthyOpt tk.thinking_signature) = true
          · have hX : firstPassBlocks model f am isSame (.thinking tk :: bs) m =
                (.thinking tk :: (firstPassBlocks model f am isSame bs m).1,
                  (firstPassBlocks model f am isSame bs m).2) := by
              rw [firstPassBlocks, if_pos hsig]
            rw [hX, firstPassBlocks, if_pos hsig, ih m m2]
          · by_cases htrim : stripIsEmpty tk.thinking = true
            · have hX : firstPassBlocks model f am isSame (.thinking tk :: bs) m =
                  firstPassBlocks model f am isSame bs m := by
                rw [firstPassBlocks, if_neg hsig, if_pos htrim]
              rw [hX, ih m m2]
            · by_cases hsame : isSame = true
              · have hX : firstPassBlocks model f am isSame (.thinking tk :: bs) m =
                    (.thinking tk :: (firstPassBlocks model f am isSame bs m).1,
                      (firstPassBlocks model f am isSame bs m).2) := by
                  rw [firstPassBlocks, if_neg hsig, if_neg htrim, if_pos hsame]
                rw [hX, firstPassBlocks, if_neg hsig, if_neg htrim, if_pos hsame, ih m m2]
              · have hX : firstPassBlocks model f am isSame (.thinking tk :: bs) m =
                    (.text { text := tk.thinking } :: (firstPassBlocks model f am isSame bs m).1,
                      (firstPassBlocks model f am isSame bs m).2) := by
                  rw [firstPassBlocks, if_neg hsig, if_neg htrim, if_neg hsame]
                rw [hX, firstPassBlocks, if_neg hsame, ih m m2]
      | text tx =>
          by_cases hsame : isSame = true
          · have hX : firstPassBlocks model f am isSame (.text tx :: bs) m =
                (.text tx :: (firstPassBlocks model f am isSame bs m).1,
                  (firstPassBlocks model f am isSame bs m).2) := by
              rw [firstPassBlocks, if_pos hsame]
            rw [hX, firstPassBlocks, if_pos hsame, ih m m2]
          · have hX : firstPassBlocks model f am isSame (.text tx :: bs) m =
                (.text { text := tx.text } :: (firstPassBlocks model f am isSame bs m).1,
                  (firstPassBlocks model f am isSame bs m).2) := by
              rw [firstPassBlocks, if_neg hsame]
            rw [hX, firstPassBlocks, if_neg hsame, ih m m2]
      | toolCall tc =>
          cases hfc : f with
          | none =>
              subst hfc
              cases hs : isSame
              · subst hs
                have hX : firstPassBlocks model none am false (.toolCall tc :: bs) m =
                    (.toolCall (stripThought false tc) ::
                      (firstPassBlocks model none am false bs m).1,
                      (firstPassBlocks model none am false bs m).2) := by
                  simp only [firstPassBlocks]
                rw [hX]
                simp only [firstPassBlocks]
                rw [stripThought_of_sig_falsy (stripThought_sig_falsy tc), ih m m2]
              · subst hs
                have hX : firstPassBlocks model none am true (.toolCall tc :: bs) m =
                    (.toolCall (stripThought true tc) ::
                      (firstPassBlocks model none am true bs m).1,
                      (firstPassBlocks model none am true bs m).2) := by
                  simp only [firstPassBlocks]
                rw [hX]
                simp only [firstPassBlocks]
                rw [stripThought_same, stripThought_same tc, ih m m2]
          | some g =>
              subst hfc
              cases hs : isSame
              · subst hs
                by_cases hneq : g tc.id model am ≠ tc.id
                · have hX : firstPassBlocks model (some g) am false (.toolCall tc :: bs) m =
                      (.toolCall { stripThought false tc with id := g tc.id model am } ::
                        (firstPassBlocks model (some g) am false bs
                          (mapInsert m tc.id (g tc.id model am))).1,
                        (firstPassBlocks model (some g) am false bs
                          (mapInsert m tc.id (g tc.id model am))).2) := by
                    simp only [firstPassBlocks]
                    simp [hneq]
                  have hsig2 : truthyOpt
                      ({ stripThought false tc with id := g tc.id model am } :
                        ToolCall).thought_signature = false := by
                    show truthyOpt (stripThought false tc).thought_signature = false
                    exact stripThought_sig_falsy tc
                  have hstrip2 : stripThought false
                      ({ stripThought false tc with id := g tc.id model am } : ToolCall) =
                      { stripThought false tc with id := g tc.id model am } :=
                    stripThought_of_sig_falsy hsig2
                  have hid2 : g ({ stripThought false tc with id := g tc.id model am } :
                      ToolCall).id model am2 =
                      ({ stripThought false tc with id := g tc.id model am } : ToolCall).id := by
                    show g (g tc.id model am) model am2 = g tc.id model am
                    exact hf g rfl tc.id am am2
                  rw [hX]
                  simp only [firstPassBlocks]
                  simp [hstrip2, hid2, ih _ m2]
                · have heq : g tc.id model am = tc.id := by
                    by_contra hc
                    exact hneq hc
                  have hX : firstPassBlocks model (some g) am false (.toolCall tc :: bs) m =
                      (.toolCall (stripThought false tc) ::
                        (firstPassBlocks model (some g) am false bs m).1,
                        (firstPassBlocks model (some g) am false bs m).2) := by
                    simp only [firstPassBlocks]
                    simp [heq]
                  have hstrip2 : stripThought false (stripThought false tc) =
                      stripThought false tc :=
                    stripThought_of_sig_falsy (stripThought_sig_falsy tc)
                  have hid2 : g (stripThought false tc).id model am2 =
                      (stripThought false tc).id := by
                    rw [stripThought_id]
                    have h3 := hf g rfl tc.id am am2
                    rw [heq] at h3
                    exact h3
                  rw [hX]
                  simp only [firstPassBlocks]
                  simp [hstrip2, hid2, ih m m2]
              · subst hs
                have hX : firstPassBlocks model (some g) am true (.toolCall tc :: bs) m =
                    (.toolCall (stripThought true tc) ::
                      (firstPassBlocks model (some g) am true bs m).1,
                      (firstPassBlocks model (some g) am true bs m).2) := by
                  simp only [firstPassBlocks]
                  simp
                rw [hX]
                simp only [firstPassBlocks]
                simp [stripThought_same, ih m m2]

/-- Every assistant message produced by the first pass has stable content. -/
theorem mem_firstPass_stable (model : ModelDesc) (f : Option Normalizer)
    (hf : ∀ (g : Normalizer), f = some g → ∀ (id : String) (a a2 : AssistantMessage),
      g (g id model a) model a2 = g id model a) :
    ∀ (l : List Message) (m0 : List (String × String)) (am : AssistantMessage),
      Message.assistant am ∈ firstPass model f l m0 → assistantStable model f am := by
  intro l
  induction l with
  | nil =>
      intro m0 am h
      simp [firstPass] at h
  | cons hd tl ih =>
      intro m0 am h
      cases hd with
      | user u =>
          rw [firstPass] at h
          rcases List.mem_cons.mp h with h1 | h1
          · exact absurd h1 (by simp)
          · exact ih _ _ h1
      | toolResult tr =>
          have harm : ∃ tr2, firstPass model f (.toolResult tr :: tl) m0 =
              .toolResult tr2 :: firstPass model f tl m0 := by
            rw [firstPass]
            split
            · split
              · exact ⟨_, rfl⟩
              · exact ⟨_, rfl⟩
            · exact ⟨_, rfl⟩
          obtain ⟨tr2, harm⟩ := harm
          rw [harm] at h
          rcases List.mem_cons.mp h with h1 | h1
          · exact absurd h1 (by simp)
          · exact ih _ _ h1
      | assistant am0 =>
          simp only [firstPass] at h
          rcases List.mem_cons.mp h with h1 | h1
          · have heq : am = { am0 with content :=
                (firstPassBlocks model f am0 (isSameModel am0 model) am0.content m0).1 } := by
              injection h1
            subst heq
            intro am2 m2
            show firstPassBlocks model f am2 (isSameModel am0 model)
                (firstPassBlocks model f am0 (isSameModel am0 model) am0.content m0).1 m2 =
              ((firstPassBlocks model f am0 (isSameModel am0 model) am0.content m0).1, m2)
            exact firstPassBlocks_stable model f hf am0 am2 (isSameModel am0 model)
              am0.content m0 m2
          · exact ih _ _ h1

/-- The first pass is the identity on a list all of whose assistant messages
have stable content. -/
theorem firstPass_of_stable (model : ModelDesc) (f : Option Normalizer) :
    ∀ (l : List Message),
      (∀ am, Message.assistant am ∈ l → assistantStable model f am) →
      firstPass model f l [] = l := by
  intro l
  induction l with
  | nil => intro _; rfl
  | cons hd tl ih =>
      intro hst
      have htl : ∀ am, Message.assistant am ∈ tl → assistantStable model f am :=
        fun am h => hst am (List.mem_cons_of_mem _ h)
      cases hd with
      | user u =>
          rw [firstPass, ih htl]
      | toolResult tr =>
          show Message.toolResult tr :: firstPass model f tl [] = _
          rw [ih htl]
      | assistant am =>
          have hstam := hst am (List.mem_cons_self _ _)
          simp only [firstPass]
          rw [hstam am []]
          show Message.assistant am :: firstPass model f tl [] = _
          rw [ih htl]

end Transform

/-- C1 (amended): in the output of `transform_messages`, every tool call of an
assistant message that is followed later in the output by another assistant or
user message is answered by a tool result later in the output.  (Tool calls of
a trailing assistant message — one with no later assistant or user message —
are not repaired; see the counterexample.) -/
theorem transform_messages_orphan_repair
    (msgs : List Message) (mdl : ModelDesc) (f : Option Transform.Normalizer) (now : Int)
    (pre post : List Message) (am : AssistantMessage) (tc : ToolCall)
    (hout : Transform.transform_messages msgs mdl f now = pre ++ Message.assistant am :: post)
    (htc : tc ∈ Transform.toolCallsOf am)
    (hb : ∃ b ∈ post, isTurnBoundary b = true) :
    ∃ m ∈ post, isResultFor tc.id m = true :=
  Transform.secondPass_orphan_free now _ [] [] pre post am hout tc htc hb

/-- C1 counterexample: for the history `[assistant{toolCall X, toolCall Y},
toolResult{X}]` — the spec scenario of a history ending in an assistant
message with tool calls `X` and `Y` and a tool result only for `X` — the
transformer output contains no tool result for `Y`: the claim as stated is
false on the code. -/
theorem transform_messages_orphan_repair_cex :
    ¬ (∀ (pre post : List Message) (am : AssistantMessage) (tc : ToolCall),
        Transform.transform_messages orphanHistory mdlA none 0 =
          pre ++ Message.assistant am :: post →
        tc ∈ Transform.toolCallsOf am →
        ∃ m ∈ post, isResultFor tc.id m = true) := by
  intro h
  have hsplit : Transform.transform_messages orphanHistory mdlA none 0 =
      [] ++ Message.assistant asstXY :: [Message.toolResult trustX] := by rfl
  have htc : tcY ∈ Transform.toolCallsOf asstXY := by
    simp [Transform.toolCallsOf, asstXY]
  obtain ⟨m, hm, hr⟩ := h [] [Message.toolResult trustX] asstXY tcY hsplit htc
  rcases List.mem_cons.mp hm with h3 | h3
  · rw [h3] at hr
    exact absurd hr (by decide)
  · simp at h3

/-- C1 witness: with a user message after the orphaned history, the amended
theorem instantiates concretely: the transformer inserts the synthetic result
for `Y` before the user message. -/
theorem transform_messages_orphan_repair_witness :
    ∃ m ∈ [Message.toolResult trustX,
           Message.toolResult (Transform.synthResult 7 tcY),
           Message.user userHello],
      isResultFor tcY.id m = true :=
  transform_messages_orphan_repair orphanHistoryUser mdlA none 7
    [] _ asstXY tcY rfl
    (by simp [Transform.toolCallsOf, asstXY])
    ⟨Message.user userHello, by simp, rfl⟩

/-- C2: the output of `transform_messages` contains no assistant message whose
stop reason is `error` or `aborted`. -/
theorem transform_messages_filters_errored
    (msgs : List Message) (mdl : ModelDesc) (f : Option Transform.Normalizer) (now : Int) :
    (Transform.transform_messages msgs mdl f now).all
      (fun m => !isErroredAssistant m) = true := by
  rw [List.all_eq_true]
  intro m hm
  rcases Transform.mem_secondPass now _ [] [] m hm with ⟨tr, htr⟩ | ⟨_, h2⟩
  · rw [htr]
    rfl
  · simp [h2]

/-- C3: `transform_messages` is idempotent — for every message list, target
model, wall-clock values and idempotent deterministic tool-call-id normalizer,
transforming an already-transformed history is the identity. -/
theorem transform_messages_idempotent (msgs : List Message) (mdl : ModelDesc)
    (f : Option Transform.Normalizer) (now now2 : Int)
    (hf : ∀ (g : Transform.Normalizer), f = some g →
      ∀ (id : String) (a a2 : AssistantMessage), g (g id mdl a) mdl a2 = g id mdl a) :
    Transform.transform_messages (Transform.transform_messages msgs mdl f now) mdl f now2 =
      Transform.transform_messages msgs mdl f now := by
  show Transform.secondPass now2 [] []
      (Transform.firstPass mdl f
        (Transform.secondPass now [] [] (Transform.firstPass mdl f msgs [])) []) =
    Transform.secondPass now [] [] (Transform.firstPass mdl f msgs [])
  have h1 : Transform.firstPass mdl f
        (Transform.secondPass now [] [] (Transform.firstPass mdl f msgs [])) [] =
      Transform.secondPass now [] [] (Transform.firstPass mdl f msgs []) := by
    apply Transform.firstPass_of_stable
    intro am ham
    rcases Transform.mem_secondPass now _ [] [] _ ham with ⟨tr, htr⟩ | ⟨h2, _⟩
    · exact absurd htr (by simp)
    · exact Transform.mem_firstPass_stable mdl f hf _ [] am h2
  rw [h1]
  exact Transform.secondPass_idem now now2 _ [] []

/-- C3 witness: idempotence instantiated at a concrete orphaned history (with
the trivial normalizer), with different wall-clock values on the two runs. -/
theorem transform_messages_idempotent_witness :
    Transform.transform_messages
        (Transform.transform_messages orphanHistoryUser mdlA none 7) mdlA none 11 =
      Transform.transform_messages orphanHistoryUser mdlA none 7 :=
  transform_messages_idempotent orphanHistoryUser mdlA none 7 11
    (fun g hg => by cases hg)

/-- C4 (evaluation at the failing input): on the valid JSON input
`"[1, 2]"` — an array, not an object — `parse_streaming_json` returns the
parsed array rather than a dict, contradicting the function's
`dict[str, Any]` return annotation, its docstring ("Always returns a valid
object") and the claim; the strict parse succeeds on this input, so the
value is returned unchecked from the first `json.loads` attempt. -/
theorem parse_streaming_json_returns_list :
    JsonParse.parse_streaming_json (some "[1, 2]") =
        Json.arr [Json.num 1 0, Json.num 2 0] ∧
    Json.isObj (JsonParse.parse_streaming_json (some "[1, 2]")) = false ∧
    JsonParse.json_loads "[1, 2]" = some (Json.arr [Json.num 1 0, Json.num 2 0]) := by
  refine ⟨?_, ?_, ?_⟩ <;> rfl

theorem matchesOverflowPattern_empty : Overflow.matchesOverflowPattern "" = false := rfl

theorem reMatch_noBody_empty : Overflow.reMatch Overflow.noBodyRE "" = false := rfl

/-- C5 counterexample: with `context_window = 0` (provided, but falsy in
Python) and a successful message whose usage exceeds it, the code returns
`false` while the claim's condition (3) — which only requires the context
window to be provided — holds: the claim as stated is false on the code. -/
theorem is_context_overflow_cex :
    Overflow.is_context_overflow silentStopMsg (some 0) = false ∧
    Overflow.specOverflowCondition silentStopMsg (some 0) = true :=
  ⟨rfl, rfl⟩

/-- C5 (amended): `is_context_overflow` returns true iff (1) the message
errored and its error message matches a catalog pattern, or (2) the message
errored and its error message matches the 400/413 no-body regex, or (3) the
message stopped normally, the context window is provided and nonzero, and
`usage.input + usage.cache_read` exceeds it.  (Python's truthiness test makes
a zero context window behave as absent; an empty error message cannot match
any pattern, so that truthiness guard is invisible in the statement.) -/
theorem is_context_overflow_spec (m : AssistantMessage) (w : Option Int) :
    Overflow.is_context_overflow m w = true ↔
      ((m.stop_reason = .error ∧ ∃ em, m.error_message = some em ∧
          Overflow.matchesOverflowPattern em = true) ∨
       (m.stop_reason = .error ∧ ∃ em, m.error_message = some em ∧
          Overflow.reMatch Overflow.noBodyRE em = true) ∨
       (∃ w0, w = some w0 ∧ w0 ≠ 0 ∧ m.stop_reason = .stop ∧
          m.usage.input + m.usage.cache_read > w0)) := by
  unfold Overflow.is_context_overflow
  cases hem : m.error_message with
  | none =>
      cases hw : w with
      | none => simp
      | some w0 =>
          simp only [Bool.or_eq_true, Bool.and_eq_true, decide_eq_true_eq]
          constructor
          · rintro (⟨_, h⟩ | ⟨⟨h1, h2⟩, h3⟩)
            · simp at h
            · exact Or.inr (Or.inr ⟨w0, rfl, h1, h2, h3⟩)
          · rintro (⟨_, em, hcontra, _⟩ | ⟨_, em, hcontra, _⟩ | ⟨w1, hw1, h1, h2, h3⟩)
            · simp at hcontra
            · simp at hcontra
            · cases hw1
              exact Or.inr ⟨⟨h1, h2⟩, h3⟩
  | some em =>
      by_cases hemp : em = ""
      · subst hemp
        cases hw : w with
        | none =>
            simp [matchesOverflowPattern_empty, reMatch_noBody_empty]
        | some w0 =>
            simp only [Bool.or_eq_true, Bool.and_eq_true, decide_eq_true_eq]
            constructor
            · rintro (⟨_, h⟩ | ⟨⟨h1, h2⟩, h3⟩)
              · simp at h
              · exact Or.inr (Or.inr ⟨w0, rfl, h1, h2, h3⟩)
            · rintro (⟨_, em2, hem2, hm2⟩ | ⟨_, em2, hem2, hm2⟩ | ⟨w1, hw1, h1, h2, h3⟩)
              · cases hem2
                rw [matchesOverflowPattern_empty] at hm2
                cases hm2
              · cases hem2
                rw [reMatch_noBody_empty] at hm2
                cases hm2
              · cases hw1
                exact Or.inr ⟨⟨h1, h2⟩, h3⟩
      · cases hw : w with
        | none =>
            simp only [Bool.or_eq_true, Bool.and_eq_true, decide_eq_true_eq]
            constructor
            · rintro (⟨h1, _, h2⟩ | h)
              · rcases h2 with h3 | h3
                · exact Or.inl ⟨h1, em, rfl, h3⟩
                · exact Or.inr (Or.inl ⟨h1, em, rfl, h3⟩)
              · simp at h
            · rintro (⟨h1, em2, hem2, hm2⟩ | ⟨h1, em2, hem2, hm2⟩ | ⟨w1, hw1, _⟩)
              · cases hem2
                exact Or.inl ⟨h1, hemp, Or.inl hm2⟩
              · cases hem2
                exact Or.inl ⟨h1, hemp, Or.inr hm2⟩
              · cases hw1
        | some w0 =>
            simp only [Bool.or_eq_true, Bool.and_eq_true, decide_eq_true_eq]
            constructor
            · rintro (⟨h1, _, h2⟩ | ⟨⟨h1, h2⟩, h3⟩)
              · rcases h2 with h3 | h3
                · exact Or.inl ⟨h1, em, rfl, h3⟩
                · exact Or.inr (Or.inl ⟨h1, em, rfl, h3⟩)
              · exact Or.inr (Or.inr ⟨w0, rfl, h1, h2, h3⟩)
            · rintro (⟨h1, em2, hem2, hm2⟩ | ⟨h1, em2, hem2, hm2⟩ | ⟨w1, hw1, h1, h2, h3⟩)
              · cases hem2
                exact Or.inl ⟨h1, hemp, Or.inl hm2⟩
              · cases hem2
                exact Or.inl ⟨h1, hemp, Or.inr hm2⟩
              · cases hw1
                exact Or.inr ⟨⟨h1, h2⟩, h3⟩

/-- C9 (evaluation at the failing input): the Anthropic stream loop emits
`done` with the accumulated `output.stop_reason` (anthropic.py line 507),
and `_map_stop_reason` maps `"refusal"` (and `"sensitive"`, and any unknown
reason) to `error`; so a turn whose `message_delta` carries stop reason
`"refusal"` ends in a `done` event whose reason is `error` — a reason the
`DoneEvent` type (`pi_ai/types.py` line 338) declares inadmissible
(`Literal["stop", "length", "toolUse"]`), contradicting the claim that
every done event's reason is one of stop, length, toolUse. -/
theorem stream_anthropic_done_reason_out_of_range :
    Anthropic.stream_anthropic_events mdlA 0 refusalDelta none =
      [Anthropic.StreamEventKind.start,
        Anthropic.StreamEventKind.done StopReason.error] ∧
    Anthropic._map_stop_reason "refusal" = StopReason.error ∧
    StopReason.error ∉ Anthropic.doneEventReasons := by
  refine ⟨rfl, rfl, by decide⟩

/-- C7 (evaluation at the failing input): `Agent._emit` (agent.py lines
464-467) is a bare loop over the listeners with no try/except, so a raising
listener aborts dispatch — with two subscribed listeners of which the first
raises, only one listener is invoked and the exception propagates to the
caller of `_emit`; the same event dispatched to the second listener alone
would have been delivered. -/
theorem agent_emit_propagates_listener_exception :
    AgentFacade.emitRun [badListener, goodListener] () = (1, some "listener boom") ∧
    AgentFacade.emitRun [goodListener] () = (1, none) :=
  ⟨rfl, rfl⟩

/-- C8: with `is_streaming` set, `prompt` and `continue_` raise synchronously
and return the state unchanged (the loop body `runLoop` is never invoked);
`continue_` likewise raises without mutation on an empty history or a
history whose last message is an assistant message (agent.py lines 266-302
and 304-315: every guard raises strictly before any state mutation). -/
theorem facade_guards_raise_without_mutation (a : AgentFacade.FacadeState)
    (input : AgentFacade.PromptInput) (images : List ImageContent) (now : Int)
    (runLoop : AgentFacade.FacadeState → Option (List Message) → AgentFacade.FacadeState) :
    (a.is_streaming = true →
      AgentFacade.prompt a input images now runLoop =
        (a, some "Agent is already processing a prompt. Use steer() or follow_up() to queue messages, or wait for completion.") ∧
      AgentFacade.continue_ a runLoop =
        (a, some "Agent is already processing. Wait for completion before continuing.")) ∧
    (a.is_streaming = false → a.messages = [] →
      AgentFacade.continue_ a runLoop = (a, some "No messages to continue from")) ∧
    (a.is_streaming = false →
      (∃ am, a.messages.getLast? = some (Message.assistant am)) →
      AgentFacade.continue_ a runLoop =
        (a, some "Cannot continue from message role: assistant")) := by
  refine ⟨fun hs => ⟨?_, ?_⟩, fun hs hm => ?_, fun hs ham => ?_⟩
  · unfold AgentFacade.prompt
    rw [if_pos hs]
  · unfold AgentFacade.continue_
    rw [if_pos hs]
  · unfold AgentFacade.continue_
    rw [if_neg (by simp [hs]), if_pos (by simp [hm])]
  · obtain ⟨am, hlast⟩ := ham
    have hne : a.messages.isEmpty = false := by
      cases hml : a.messages with
      | nil => rw [hml] at hlast; cases hlast
      | cons x xs => simp [hml]
    unfold AgentFacade.continue_
    rw [if_neg (by simp [hs]), if_neg (by simp [hne]), hlast]

/-- Witness for C8: the guards evaluated on concrete facade states — a busy
facade, an idle facade with empty history, and an idle facade whose history
ends in an assistant message. -/
theorem facade_guards_raise_without_mutation_witness :
    AgentFacade.prompt busyFacade (AgentFacade.PromptInput.text "hi") [] 0 (fun a _ => a) =
      (busyFacade, some "Agent is already processing a prompt. Use steer() or follow_up() to queue messages, or wait for completion.") ∧
    AgentFacade.continue_ busyFacade (fun a _ => a) =
      (busyFacade, some "Agent is already processing. Wait for completion before continuing.") ∧
    AgentFacade.continue_ idleEmptyFacade (fun a _ => a) =
      (idleEmptyFacade, some "No messages to continue from") ∧
    AgentFacade.continue_ idleAssistantTailFacade (fun a _ => a) =
      (idleAssistantTailFacade, some "Cannot continue from message role: assistant") := by
  refine ⟨?_, ?_, ?_, ?_⟩
  · exact ((facade_guards_raise_without_mutation busyFacade
      (AgentFacade.PromptInput.text "hi") [] 0 (fun a _ => a)).1 rfl).1
  · exact ((facade_guards_raise_without_mutation busyFacade
      (AgentFacade.PromptInput.text "hi") [] 0 (fun a _ => a)).1 rfl).2
  · exact (facade_guards_raise_without_mutation idleEmptyFacade
      (AgentFacade.PromptInput.text "hi") [] 0 (fun a _ => a)).2.1 rfl rfl
  · exact (facade_guards_raise_without_mutation idleAssistantTailFacade
      (AgentFacade.PromptInput.text "hi") [] 0 (fun a _ => a)).2.2 rfl ⟨asstXY, rfl⟩

/-- One inner iteration of the loop whose streamed message is finalized with
stop reason `error` or `aborted` short-circuits to the accumulated message
list (agent_loop.py lines 164-168). -/
theorem runLoopAux_errored_step {σ : Type} (cfg : AgentLoop.LoopConfig σ)
    (tools : List AgentLoop.AgentTool) (signal : Bool) (now : Int) (fuel : Nat)
    (st : AgentLoop.LoopState σ) (hm : st.hasMore = true)
    (hab : (AgentLoop.streamAssistantResponse cfg signal (st.ctx ++ st.pending)).1.stop_reason = .error ∨
      (AgentLoop.streamAssistantResponse cfg signal (st.ctx ++ st.pending)).1.stop_reason = .aborted) :
    AgentLoop.runLoopAux cfg tools signal now (fuel + 1) st =
      some ((st.newMessages ++ st.pending) ++
        [.assistant (AgentLoop.streamAssistantResponse cfg signal (st.ctx ++ st.pending)).1]) := by
  rw [AgentLoop.runLoopAux]
  rw [if_pos (by simp [hm]), if_pos hab]

/-- C6 (counterexample): a set abort signal does not by itself stop the loop.
The embedded `_run_loop` and `_execute_tool_calls` never read the signal —
it is only forwarded to `transform_context` and to `tool.execute`
(agent_loop.py lines 253, 346) — so with the signal set throughout, a
transport and a tool that ignore it still produce two full LLM turns and a
tool execution; the loop does not short-circuit to the messages accumulated
so far (the empty list). -/
theorem agent_loop_abort_not_observed :
    ¬ (∀ (σ : Type) (cfg : AgentLoop.LoopConfig σ) (tools : List AgentLoop.AgentTool)
        (now : Int) (fuel : Nat) (ctx newMessages : List Message) (qs : σ),
        0 < fuel →
        AgentLoop._run_loop cfg tools true now fuel ctx newMessages qs =
          some newMessages) := by
  intro h
  have h2 := h Unit c6Config [c6Tool] 5 5 [] [] () (by decide)
  have h3 : AgentLoop._run_loop c6Config [c6Tool] true 5 5 [] [] () =
      some [Message.assistant c6Asst1, Message.toolResult c6ToolResult,
        Message.assistant c6Asst2] := rfl
  rw [h3] at h2
  simp at h2

/-- C6 (amended): cancellation is cooperative, not polled by the loop.  The
loop itself never reads the abort signal; it stops early exactly when the
transport cooperates by finalizing the streamed assistant message with stop
reason `aborted` (or `error`), in which case the current iteration
short-circuits to `agent_end` with the messages accumulated so far plus that
final assistant message, starting no further LLM turn and executing no tool
calls (agent_loop.py lines 164-168). -/
theorem agent_loop_cooperative_cancellation {σ : Type} (cfg : AgentLoop.LoopConfig σ)
    (tools : List AgentLoop.AgentTool) (signal : Bool) (now : Int) (fuel : Nat)
    (ctx newMessages : List Message) (qs : σ)
    (hs : cfg.getSteering = none)
    (hab : (AgentLoop.streamAssistantResponse cfg signal ctx).1.stop_reason = .error ∨
      (AgentLoop.streamAssistantResponse cfg signal ctx).1.stop_reason = .aborted) :
    AgentLoop._run_loop cfg tools signal now (fuel + 1) ctx newMessages qs =
      some (newMessages ++
        [.assistant (AgentLoop.streamAssistantResponse cfg signal ctx).1]) := by
  have h0 : AgentLoop._run_loop cfg tools signal now (fuel + 1) ctx newMessages qs =
      AgentLoop.runLoopAux cfg tools signal now (fuel + 1)
        { ctx := ctx, newMessages := newMessages, pending := [], hasMore := true,
          qs := qs } := by
    unfold AgentLoop._run_loop
    rw [hs]
  rw [h0]
  have hab2 : (AgentLoop.streamAssistantResponse cfg signal (ctx ++ [])).1.stop_reason = .error ∨
      (AgentLoop.streamAssistantResponse cfg signal (ctx ++ [])).1.stop_reason = .aborted := by
    rw [List.append_nil]
    exact hab
  have h1 := runLoopAux_errored_step cfg tools signal now fuel
    { ctx := ctx, newMessages := newMessages, pending := [], hasMore := true,
      qs := qs } rfl hab2
  rw [h1]
  simp

/-- Witness for C6 (amended): a transport that surfaces
`stop_reason = aborted` makes the loop stop after that single turn. -/
theorem agent_loop_cooperative_cancellation_witness :
    AgentLoop._run_loop c6AbortCfg [] true 3 1 [] [] () =
      some [Message.assistant c6AbortAsst] := by
  have h := agent_loop_cooperative_cancellation c6AbortCfg [] true 3 0 [] [] ()
    rfl (Or.inr rfl)
  exact h

end PiMono
